import Mathlib

/-!
# Verification of the CacheSimulator core

Shallow embedding of the cache simulator (cache_base.cpp, direct_mapped.cpp,
fully_associative.cpp, set_associative.cpp) and proofs about it.

Modelling conventions:
* C++ unsigned integers are modelled as `Nat` (the counters are monotone and the
  address arithmetic consists of right shifts and remainders, which never
  overflow); the `int` cells of the pseudo-LRU metadata vectors are `Int`
  (the code stores `-1` sentinels and tags there).
* The `data` payload array of a `CacheBlock` is never read or written by the
  simulator (only allocated), so it is not part of the model; likewise the
  write-only `all_blocks_valid` member of `FullyAssocCache`.
* `CacheBlock::CacheBlock` leaves the member `tag` uninitialized.  The model
  therefore takes the residual (indeterminate) tag of each freshly constructed
  block as an explicit parameter: every behaviour of the model for some choice
  of residual tags is a behaviour the C++ program may exhibit.
* `rand()` used by the RANDOM policy is modelled by threading an explicit
  random value into every access.
-/

/-- `CacheReplacement_t` from cache_simulator.hpp. -/
inductive CacheReplacement where
  | RANDOM
  | LRU
  | PSEUDO_LRU
deriving DecidableEq, Repr

/-- `CacheBlock` from cache_simulator.hpp (tag / dirty / valid; the simulated
payload array is never inspected and is omitted). -/
structure CacheBlock where
  tag : Nat
  dirty : Bool
  valid : Bool
deriving DecidableEq, Repr

instance : Inhabited CacheBlock := ⟨⟨0, false, false⟩⟩

/-- `CacheBlock::CacheBlock`: valid and dirty start false; `tag` is left
uninitialized by the constructor, so the model receives the residual value `t`
it happens to hold. -/
def CacheBlock.init (t : Nat) : CacheBlock :=
  { tag := t, dirty := false, valid := false }

/-- `AccessInfo` from cache_simulator.hpp: the ten statistics counters. -/
structure AccessInfo where
  cache_access : Nat
  read_access : Nat
  write_access : Nat
  cache_misses : Nat
  compulsory_misses : Nat
  capacity_misses : Nat
  conflict_misses : Nat
  read_misses : Nat
  write_misses : Nat
  dirty_blocks_evicted : Nat
deriving DecidableEq, Repr

/-- `AccessInfo::AccessInfo`: all counters start at 0. -/
def AccessInfo.create : AccessInfo :=
  { cache_access := 0, read_access := 0, write_access := 0, cache_misses := 0
    compulsory_misses := 0, capacity_misses := 0, conflict_misses := 0
    read_misses := 0, write_misses := 0, dirty_blocks_evicted := 0 }

/-- `CacheReplace` from cache_simulator.hpp. -/
structure CacheReplace where
  replacement_policy : CacheReplacement
  num_sets : Nat
  ways : Nat
  meta_data : List (List Int)
deriving DecidableEq, Repr

/-- `CacheReplace::CacheReplace`: for PSEUDO_LRU each set gets a flat array of
`2*ways-1` cells, the first `ways-1` internal nodes initialized to `0`, the
remaining `ways` leaf cells to `-1`.  For the other policies `meta_data` stays
empty. -/
def CacheReplace.create (policy : CacheReplacement) (num_sets ways : Nat) :
    CacheReplace :=
  { replacement_policy := policy, num_sets := num_sets, ways := ways
    meta_data :=
      if policy = CacheReplacement.PSEUDO_LRU then
        List.replicate num_sets
          (List.replicate (ways - 1) (0 : Int) ++ List.replicate ways (-1 : Int))
      else [] }

/-- The pseudo-LRU victim walk of `CacheReplace::get_victim_index`:
starting from tree-array index `i`, while `i < ways - 1` move to `2*i+1`
when the stored bit is 0, else to `2*i+2`. -/
def plruTraverse (m : List Int) (ways : Nat) (i : Nat) : Nat :=
  if h : i < ways - 1 then
    plruTraverse m ways (if m.getD i 0 = 0 then 2 * i + 1 else 2 * i + 2)
  else i
termination_by ways - 1 - i
decreasing_by
  split <;> omega

/-- Fuel-bounded version of the pseudo-LRU walk, mirroring the `while` loop of
`get_victim_index` one iteration per unit of fuel; `none` means the fuel ran
out before the loop condition became false. -/
def plruTraverseFuel (m : List Int) (ways : Nat) : Nat → Nat → Option Nat
  | 0, i => if i < ways - 1 then none else some i
  | fuel + 1, i =>
      if i < ways - 1 then
        plruTraverseFuel m ways fuel (if m.getD i 0 = 0 then 2 * i + 1 else 2 * i + 2)
      else some i

/-- `CacheReplace::get_victim_index`.  `rnd` is the value returned by `rand()`
for the RANDOM policy.  (The C++ method reads a by-value copy of the metadata
row and writes no member, which the pure result type makes explicit.) -/
def CacheReplace.get_victim_index (r : CacheReplace) (set_index : Nat)
    (rnd : Nat) : Nat :=
  match r.replacement_policy with
  | CacheReplacement.RANDOM => rnd % r.ways
  | CacheReplacement.LRU => 0
  | CacheReplacement.PSEUDO_LRU =>
      plruTraverse (r.meta_data.getD set_index []) r.ways 0 + 1 - r.ways

/-- One toggle of a metadata cell: the C++ `m[i] = m[i] ? 0 : 1`. -/
def toggleCell (m : List Int) (i : Nat) : List Int :=
  m.set i (if m.getD i 0 = 0 then 1 else 0)

/-- The ancestor-toggling `do { current = (current-1)/2; flip } while (current > 0)`
loop of `CacheReplace::mark_accessed` for the PSEUDO_LRU policy, starting from
leaf index `i`.  (For `i = 0` the C++ computes `(0-1)/2 = 0` by truncating int
division, which agrees with truncating `Nat` subtraction.) -/
def plruToggleLoop (m : List Int) (i : Nat) : List Int :=
  if (i - 1) / 2 = 0 then toggleCell m ((i - 1) / 2)
  else plruToggleLoop (toggleCell m ((i - 1) / 2)) ((i - 1) / 2)
termination_by i
decreasing_by
  omega

/-- `CacheReplace::mark_accessed`: LRU moves the accessed block to the back of
the set's storage vector; PSEUDO_LRU writes the accessed block's tag into the
leaf cell `block_index + ways - 1` and toggles every ancestor bit; RANDOM does
nothing.  Returns the (possibly reordered) set contents together with the
updated policy state. -/
def CacheReplace.mark_accessed (r : CacheReplace) (set_index : Nat)
    (data : List CacheBlock) (block_index : Nat) :
    List CacheBlock × CacheReplace :=
  match r.replacement_policy with
  | CacheReplacement.LRU =>
      ((data.eraseIdx block_index) ++ [data.getD block_index default], r)
  | CacheReplacement.PSEUDO_LRU =>
      let accessed_block := data.getD block_index default
      let m := r.meta_data.getD set_index []
      let m1 := m.set (block_index + r.ways - 1) (accessed_block.tag : Int)
      let m2 := plruToggleLoop m1 (r.ways - 1 + block_index)
      (data, { r with meta_data := r.meta_data.set set_index m2 })
  | CacheReplacement.RANDOM => (data, r)

/-- `Cache::is_accessed`: linear scan of the `accessed_blocks` list; returns
whether `block_address` was present and, if not, appends it. -/
def isAccessed (l : List Nat) (block_address : Nat) : Bool × List Nat :=
  if l.contains block_address then (true, l) else (false, l ++ [block_address])

/-- The loop bodies of `Cache::Cache` computing `line_bits` / `index_bits`:
the first `i < 32` with `2^i = n` (left uninitialized by the C++ when none
exists; the model defaults to 0, and all claims assume power-of-two geometry).
-/
def bitsFor (n : Nat) : Nat :=
  (((List.range 32).find? (fun i => 2 ^ i == n)).getD 0)

/-- The one-pass search loop shared by the associative `read`/`write` methods:
returns `(empty_block_index, found_block_index)`, where the empty index is the
first block with `valid == false` seen up to (and including) the position of
the first tag match, and the scan stops at the first block whose `tag` equals
`addr_tag` (the loop `break`).  Note that, exactly as in the source, the tag
comparison does NOT consult the valid flag. -/
def scanSet (addr_tag : Nat) : List CacheBlock → Option Nat × Option Nat
  | [] => (none, none)
  | b :: rest =>
      if b.tag == addr_tag then
        ((if b.valid then none else some 0), some 0)
      else
        let r := scanSet addr_tag rest
        ((if b.valid then r.1.map (· + 1) else some 0), r.2.map (· + 1))

/-- `Cache` base data shared by the three organizations (geometry, counters,
access history) together with the fully associative cache's own members.
The base-class constructor computes `num_blocks = cache_size / block_size`,
`line_bits = log2 block_size`, `index_bits = log2 num_blocks`. -/
structure FullyAssocCache where
  cache_size : Nat
  block_size : Nat
  num_blocks : Nat
  line_bits : Nat
  index_bits : Nat
  access_info : AccessInfo
  cache_repl : CacheReplace
  accessed_blocks : List Nat
  cache_blocks : List CacheBlock
deriving DecidableEq, Repr

/-- `FullyAssocCache::FullyAssocCache`: `num_blocks` blocks (each with its
residual uninitialized tag), one replacement set with `num_blocks` ways.
The write-only `all_blocks_valid` member is omitted. -/
def FullyAssocCache.create (cache_size block_size : Nat)
    (replacement_policy : CacheReplacement) (residual : Nat → Nat) :
    FullyAssocCache :=
  let num_blocks := cache_size / block_size
  { cache_size := cache_size, block_size := block_size, num_blocks := num_blocks
    line_bits := bitsFor block_size, index_bits := bitsFor num_blocks
    access_info := AccessInfo.create
    cache_repl := CacheReplace.create replacement_policy 1 num_blocks
    accessed_blocks := []
    cache_blocks := (List.range num_blocks).map (fun i => CacheBlock.init (residual i)) }

/-- `FullyAssocCache::read`. -/
def FullyAssocCache.read (c : FullyAssocCache) (address : Nat) (rnd : Nat) :
    FullyAssocCache :=
  let info0 := { c.access_info with
                  cache_access := c.access_info.cache_access + 1
                  read_access := c.access_info.read_access + 1 }
  let addr_tag := address >>> (c.line_bits + c.index_bits)
  let block_address := address >>> c.line_bits
  let pa := isAccessed c.accessed_blocks block_address
  let info1 :=
    if pa.1 then info0
    else { info0 with
            compulsory_misses := info0.compulsory_misses + 1
            cache_misses := info0.cache_misses + 1
            read_misses := info0.read_misses + 1 }
  let scan := scanSet addr_tag c.cache_blocks
  match scan.2 with
  | some found_block_index =>
      -- block already present in cache, do nothing
      let mres := c.cache_repl.mark_accessed 0 c.cache_blocks found_block_index
      { c with access_info := info1, accessed_blocks := pa.2
               cache_blocks := mres.1, cache_repl := mres.2 }
  | none =>
      match scan.1 with
      | some empty_block_index =>
          -- empty block present: read from main memory and fill it
          let b := c.cache_blocks.getD empty_block_index default
          let blocks1 := c.cache_blocks.set empty_block_index
                           { b with valid := true, tag := addr_tag }
          let mres := c.cache_repl.mark_accessed 0 blocks1 empty_block_index
          { c with access_info := info1, accessed_blocks := pa.2
                   cache_blocks := mres.1, cache_repl := mres.2 }
      | none =>
          -- no empty block: evict a victim chosen by the replacement policy
          let info2 :=
            if pa.1 then
              { info1 with
                  cache_misses := info1.cache_misses + 1
                  read_misses := info1.read_misses + 1
                  capacity_misses := info1.capacity_misses + 1 }
            else info1
          let victim_index := c.cache_repl.get_victim_index 0 rnd
          let vb := c.cache_blocks.getD victim_index default
          let info3 :=
            if vb.dirty then
              { info2 with dirty_blocks_evicted := info2.dirty_blocks_evicted + 1 }
            else info2
          let blocks1 := c.cache_blocks.set victim_index
                           { vb with dirty := false, tag := addr_tag }
          let mres := c.cache_repl.mark_accessed 0 blocks1 victim_index
          { c with access_info := info3, accessed_blocks := pa.2
                   cache_blocks := mres.1, cache_repl := mres.2 }

/-- `FullyAssocCache::write`: same resolution as `read` (with the write
counters), then sets the resolved block's dirty flag before marking it
accessed. -/
def FullyAssocCache.write (c : FullyAssocCache) (address : Nat) (rnd : Nat) :
    FullyAssocCache :=
  let info0 := { c.access_info with
                  cache_access := c.access_info.cache_access + 1
                  write_access := c.access_info.write_access + 1 }
  let addr_tag := address >>> (c.line_bits + c.index_bits)
  let block_address := address >>> c.line_bits
  let pa := isAccessed c.accessed_blocks block_address
  let info1 :=
    if pa.1 then info0
    else { info0 with
            compulsory_misses := info0.compulsory_misses + 1
            cache_misses := info0.cache_misses + 1
            write_misses := info0.write_misses + 1 }
  let scan := scanSet addr_tag c.cache_blocks
  match scan.2 with
  | some found_block_index =>
      let b := c.cache_blocks.getD found_block_index default
      let blocksD := c.cache_blocks.set found_block_index { b with dirty := true }
      let mres := c.cache_repl.mark_accessed 0 blocksD found_block_index
      { c with access_info := info1, accessed_blocks := pa.2
               cache_blocks := mres.1, cache_repl := mres.2 }
  | none =>
      match scan.1 with
      | some empty_block_index =>
          let b := c.cache_blocks.getD empty_block_index default
          let blocks1 := c.cache_blocks.set empty_block_index
                           { b with valid := true, tag := addr_tag }
          let b1 := blocks1.getD empty_block_index default
          let blocksD := blocks1.set empty_block_index { b1 with dirty := true }
          let mres := c.cache_repl.mark_accessed 0 blocksD empty_block_index
          { c with access_info := info1, accessed_blocks := pa.2
                   cache_blocks := mres.1, cache_repl := mres.2 }
      | none =>
          let info2 :=
            if pa.1 then
              { info1 with
                  cache_misses := info1.cache_misses + 1
                  write_misses := info1.write_misses + 1
                  capacity_misses := info1.capacity_misses + 1 }
            else info1
          let victim_index := c.cache_repl.get_victim_index 0 rnd
          let vb := c.cache_blocks.getD victim_index default
          let info3 :=
            if vb.dirty then
              { info2 with dirty_blocks_evicted := info2.dirty_blocks_evicted + 1 }
            else info2
          let blocks1 := c.cache_blocks.set victim_index
                           { vb with dirty := false, tag := addr_tag }
          let b1 := blocks1.getD victim_index default
          let blocksD := blocks1.set victim_index { b1 with dirty := true }
          let mres := c.cache_repl.mark_accessed 0 blocksD victim_index
          { c with access_info := info3, accessed_blocks := pa.2
                   cache_blocks := mres.1, cache_repl := mres.2 }

/-- `DirectMappedCache` (cache_simulator.hpp): base-class data plus its block
vector; it creates no `CacheReplace`. -/
structure DirectMappedCache where
  cache_size : Nat
  block_size : Nat
  num_blocks : Nat
  line_bits : Nat
  index_bits : Nat
  access_info : AccessInfo
  accessed_blocks : List Nat
  cache_blocks : List CacheBlock
deriving DecidableEq, Repr

/-- `DirectMappedCache::DirectMappedCache`. -/
def DirectMappedCache.create (cache_size block_size : Nat)
    (residual : Nat → Nat) : DirectMappedCache :=
  let num_blocks := cache_size / block_size
  { cache_size := cache_size, block_size := block_size, num_blocks := num_blocks
    line_bits := bitsFor block_size, index_bits := bitsFor num_blocks
    access_info := AccessInfo.create
    accessed_blocks := []
    cache_blocks := (List.range num_blocks).map (fun i => CacheBlock.init (residual i)) }

/-- `DirectMappedCache::read`: the sole candidate block is
`cache_blocks[block_address % num_blocks]`. -/
def DirectMappedCache.read (c : DirectMappedCache) (address : Nat) :
    DirectMappedCache :=
  let info0 := { c.access_info with
                  cache_access := c.access_info.cache_access + 1
                  read_access := c.access_info.read_access + 1 }
  let block_address := address >>> c.line_bits
  let index := block_address % c.num_blocks
  let addr_tag := address >>> (c.line_bits + c.index_bits)
  let pa := isAccessed c.accessed_blocks block_address
  let info1 :=
    if pa.1 then info0
    else { info0 with
            compulsory_misses := info0.compulsory_misses + 1
            cache_misses := info0.cache_misses + 1
            read_misses := info0.read_misses + 1 }
  let b := c.cache_blocks.getD index default
  if b.valid = false then
    -- empty block: fill it
    { c with access_info := info1, accessed_blocks := pa.2
             cache_blocks := c.cache_blocks.set index
               { b with valid := true, tag := addr_tag } }
  else if b.tag = addr_tag then
    -- hit: no replacement needed
    { c with access_info := info1, accessed_blocks := pa.2 }
  else
    -- valid but tag differs: replace the block
    let info2 :=
      if pa.1 then
        { info1 with
            conflict_misses := info1.conflict_misses + 1
            read_misses := info1.read_misses + 1
            cache_misses := info1.cache_misses + 1 }
      else info1
    let info3 :=
      if b.dirty then
        { info2 with dirty_blocks_evicted := info2.dirty_blocks_evicted + 1 }
      else info2
    { c with access_info := info3, accessed_blocks := pa.2
             cache_blocks := c.cache_blocks.set index
               { b with dirty := false, tag := addr_tag } }

/-- `DirectMappedCache::write`. -/
def DirectMappedCache.write (c : DirectMappedCache) (address : Nat) :
    DirectMappedCache :=
  let info0 := { c.access_info with
                  cache_access := c.access_info.cache_access + 1
                  write_access := c.access_info.write_access + 1 }
  let block_address := address >>> c.line_bits
  let index := block_address % c.num_blocks
  let addr_tag := address >>> (c.line_bits + c.index_bits)
  let pa := isAccessed c.accessed_blocks block_address
  let info1 :=
    if pa.1 then info0
    else { info0 with
            compulsory_misses := info0.compulsory_misses + 1
            cache_misses := info0.cache_misses + 1
            write_misses := info0.write_misses + 1 }
  let b := c.cache_blocks.getD index default
  if b.valid = false then
    -- empty block: fill it and write the data (dirty)
    { c with access_info := info1, accessed_blocks := pa.2
             cache_blocks := c.cache_blocks.set index
               { b with valid := true, tag := addr_tag, dirty := true } }
  else if b.tag = addr_tag then
    -- hit: write the data (dirty)
    { c with access_info := info1, accessed_blocks := pa.2
             cache_blocks := c.cache_blocks.set index { b with dirty := true } }
  else
    let info2 :=
      if pa.1 then
        { info1 with
            conflict_misses := info1.conflict_misses + 1
            cache_misses := info1.cache_misses + 1
            write_misses := info1.write_misses + 1 }
      else info1
    let info3 :=
      if b.dirty then
        { info2 with dirty_blocks_evicted := info2.dirty_blocks_evicted + 1 }
      else info2
    { c with access_info := info3, accessed_blocks := pa.2
             cache_blocks := c.cache_blocks.set index
               { b with dirty := true, tag := addr_tag } }

/-- `SetAssocCache` (cache_simulator.hpp): base-class data plus the
`num_sets × num_ways` block matrix. -/
structure SetAssocCache where
  cache_size : Nat
  block_size : Nat
  num_blocks : Nat
  line_bits : Nat
  index_bits : Nat
  access_info : AccessInfo
  cache_repl : CacheReplace
  accessed_blocks : List Nat
  cache_blocks : List (List CacheBlock)
  num_sets : Nat
  num_ways : Nat
deriving DecidableEq, Repr

/-- `SetAssocCache::SetAssocCache`: `num_sets = num_blocks / num_ways` sets of
`num_ways` blocks each.  (The C++ constructor pushes the inner blocks into
reserved-but-unsized outer slots — undefined behaviour that in practice yields
exactly this num_sets × num_ways matrix, which the model takes as the intended
result.)  `residual s w` is the uninitialized tag of way `w` of set `s`. -/
def SetAssocCache.create (cache_size block_size num_ways : Nat)
    (replacement_policy : CacheReplacement) (residual : Nat → Nat → Nat) :
    SetAssocCache :=
  let num_blocks := cache_size / block_size
  let num_sets := num_blocks / num_ways
  { cache_size := cache_size, block_size := block_size, num_blocks := num_blocks
    line_bits := bitsFor block_size, index_bits := bitsFor num_blocks
    access_info := AccessInfo.create
    cache_repl := CacheReplace.create replacement_policy num_sets num_ways
    accessed_blocks := []
    num_sets := num_sets, num_ways := num_ways
    cache_blocks := (List.range num_sets).map (fun s =>
      (List.range num_ways).map (fun w => CacheBlock.init (residual s w))) }

/-- `SetAssocCache::read`. -/
def SetAssocCache.read (c : SetAssocCache) (address : Nat) (rnd : Nat) :
    SetAssocCache :=
  let info0 := { c.access_info with
                  cache_access := c.access_info.cache_access + 1
                  read_access := c.access_info.read_access + 1 }
  let set_index := (address >>> c.line_bits) % c.num_sets
  let addr_tag := address >>> (c.line_bits + c.index_bits)
  let block_address := address >>> c.line_bits
  let pa := isAccessed c.accessed_blocks block_address
  let info1 :=
    if pa.1 then info0
    else { info0 with
            compulsory_misses := info0.compulsory_misses + 1
            cache_misses := info0.cache_misses + 1
            read_misses := info0.read_misses + 1 }
  let s := c.cache_blocks.getD set_index []
  let scan := scanSet addr_tag s
  match scan.2 with
  | some found_block_index =>
      let mres := c.cache_repl.mark_accessed set_index s found_block_index
      { c with access_info := info1, accessed_blocks := pa.2
               cache_blocks := c.cache_blocks.set set_index mres.1
               cache_repl := mres.2 }
  | none =>
      match scan.1 with
      | some empty_block_index =>
          let b := s.getD empty_block_index default
          let s1 := s.set empty_block_index { b with valid := true, tag := addr_tag }
          let mres := c.cache_repl.mark_accessed set_index s1 empty_block_index
          { c with access_info := info1, accessed_blocks := pa.2
                   cache_blocks := c.cache_blocks.set set_index mres.1
                   cache_repl := mres.2 }
      | none =>
          let info2 :=
            if pa.1 then
              { info1 with
                  cache_misses := info1.cache_misses + 1
                  read_misses := info1.read_misses + 1
                  capacity_misses := info1.capacity_misses + 1 }
            else info1
          let victim_index := c.cache_repl.get_victim_index set_index rnd
          let vb := s.getD victim_index default
          let info3 :=
            if vb.dirty then
              { info2 with dirty_blocks_evicted := info2.dirty_blocks_evicted + 1 }
            else info2
          let s1 := s.set victim_index { vb with dirty := false, tag := addr_tag }
          let mres := c.cache_repl.mark_accessed set_index s1 victim_index
          { c with access_info := info3, accessed_blocks := pa.2
                   cache_blocks := c.cache_blocks.set set_index mres.1
                   cache_repl := mres.2 }

/-- `SetAssocCache::write`: same resolution as `read` (with write counters),
then sets the resolved block's dirty flag before marking it accessed. -/
def SetAssocCache.write (c : SetAssocCache) (address : Nat) (rnd : Nat) :
    SetAssocCache :=
  let info0 := { c.access_info with
                  cache_access := c.access_info.cache_access + 1
                  write_access := c.access_info.write_access + 1 }
  let set_index := (address >>> c.line_bits) % c.num_sets
  let addr_tag := address >>> (c.line_bits + c.index_bits)
  let block_address := address >>> c.line_bits
  let pa := isAccessed c.accessed_blocks block_address
  let info1 :=
    if pa.1 then info0
    else { info0 with
            compulsory_misses := info0.compulsory_misses + 1
            cache_misses := info0.cache_misses + 1
            write_misses := info0.write_misses + 1 }
  let s := c.cache_blocks.getD set_index []
  let scan := scanSet addr_tag s
  match scan.2 with
  | some found_block_index =>
      let b := s.getD found_block_index default
      let sD := s.set found_block_index { b with dirty := true }
      let mres := c.cache_repl.mark_accessed set_index sD found_block_index
      { c with access_info := info1, accessed_blocks := pa.2
               cache_blocks := c.cache_blocks.set set_index mres.1
               cache_repl := mres.2 }
  | none =>
      match scan.1 with
      | some empty_block_index =>
          let b := s.getD empty_block_index default
          let s1 := s.set empty_block_index { b with valid := true, tag := addr_tag }
          let b1 := s1.getD empty_block_index default
          let sD := s1.set empty_block_index { b1 with dirty := true }
          let mres := c.cache_repl.mark_accessed set_index sD empty_block_index
          { c with access_info := info1, accessed_blocks := pa.2
                   cache_blocks := c.cache_blocks.set set_index mres.1
                   cache_repl := mres.2 }
      | none =>
          let info2 :=
            if pa.1 then
              { info1 with
                  cache_misses := info1.cache_misses + 1
                  write_misses := info1.write_misses + 1
                  capacity_misses := info1.capacity_misses + 1 }
            else info1
          let victim_index := c.cache_repl.get_victim_index set_index rnd
          let vb := s.getD victim_index default
          let info3 :=
            if vb.dirty then
              { info2 with dirty_blocks_evicted := info2.dirty_blocks_evicted + 1 }
            else info2
          let s1 := s.set victim_index { vb with dirty := false, tag := addr_tag }
          let b1 := s1.getD victim_index default
          let sD := s1.set victim_index { b1 with dirty := true }
          let mres := c.cache_repl.mark_accessed set_index sD victim_index
          { c with access_info := info3, accessed_blocks := pa.2
                   cache_blocks := c.cache_blocks.set set_index mres.1
                   cache_repl := mres.2 }

/-- A single trace entry: read or write, the 32-bit address, and the value the
C library `rand()` would return during this access (used only by the RANDOM
replacement policy). -/
inductive AccessOp where
  | rd
  | wr
deriving DecidableEq, Repr

/-- Run a fully associative cache over a trace. -/
def runFA (c : FullyAssocCache) (trace : List (AccessOp × Nat × Nat)) :
    FullyAssocCache :=
  trace.foldl (fun c e =>
    match e.1 with
    | AccessOp.rd => c.read e.2.1 e.2.2
    | AccessOp.wr => c.write e.2.1 e.2.2) c

/-- Run a direct-mapped cache over a trace. -/
def runDM (c : DirectMappedCache) (trace : List (AccessOp × Nat × Nat)) :
    DirectMappedCache :=
  trace.foldl (fun c e =>
    match e.1 with
    | AccessOp.rd => c.read e.2.1
    | AccessOp.wr => c.write e.2.1) c

/-- Run a set-associative cache over a trace. -/
def runSA (c : SetAssocCache) (trace : List (AccessOp × Nat × Nat)) :
    SetAssocCache :=
  trace.foldl (fun c e =>
    match e.1 with
    | AccessOp.rd => c.read e.2.1 e.2.2
    | AccessOp.wr => c.write e.2.1 e.2.2) c

/-! ## Basic lemmas about the helper operations -/

theorem getD_set_self {α : Type} {l : List α} {i : Nat} {v d : α}
    (h : i < l.length) : (l.set i v).getD i d = v := by
  simp [List.getD, List.getElem?_set_self, h]

theorem getD_set_ne {α : Type} {l : List α} {i j : Nat} {v d : α}
    (h : i ≠ j) : (l.set i v).getD j d = l.getD j d := by
  simp [List.getD, List.getElem?_set_ne h]

theorem getD_oob {α : Type} {l : List α} {i : Nat} {d : α}
    (h : l.length ≤ i) : l.getD i d = d := by
  simp [List.getD, List.getElem?_eq_none h]

theorem isAccessed_fst (l : List Nat) (ba : Nat) :
    (isAccessed l ba).1 = l.contains ba := by
  simp only [isAccessed]
  split <;> simp_all

theorem isAccessed_mem_self (l : List Nat) (ba : Nat) :
    ba ∈ (isAccessed l ba).2 := by
  simp only [isAccessed]
  split
  · next h => exact List.elem_iff.mp h
  · simp

theorem isAccessed_mem_of_mem {l : List Nat} {x : Nat} (ba : Nat) (h : x ∈ l) :
    x ∈ (isAccessed l ba).2 := by
  simp only [isAccessed]
  split <;> simp [h]

theorem isAccessed_snd_mem_iff (l : List Nat) (ba x : Nat) :
    x ∈ (isAccessed l ba).2 ↔ x ∈ l ∨ x = ba := by
  simp only [isAccessed]
  split
  · next h =>
    simp only [List.elem_iff] at h
    constructor
    · exact Or.inl
    · rintro (hx | rfl) <;> assumption
  · simp

/-! ## Lemmas about the set-search loop -/

theorem scanSet_found_spec (t : Nat) :
    ∀ (l : List CacheBlock) (f : Nat), (scanSet t l).2 = some f →
      f < l.length ∧ (l.getD f default).tag = t := by
  intro l
  induction l with
  | nil => intro f h; simp [scanSet] at h
  | cons b rest ih =>
    intro f h
    simp only [scanSet] at h
    split at h
    · next hb =>
      simp only [Prod.snd] at h
      cases h
      simpa using (beq_iff_eq.mp hb)
    · next hb =>
      simp only [Prod.snd, Option.map_eq_some'] at h
      obtain ⟨f', hf', rfl⟩ := h
      obtain ⟨h1, h2⟩ := ih f' hf'
      refine ⟨by simpa using h1, ?_⟩
      simpa [List.getD] using h2

theorem scanSet_found_none_iff (t : Nat) :
    ∀ (l : List CacheBlock), (scanSet t l).2 = none ↔ ∀ b ∈ l, b.tag ≠ t := by
  intro l
  induction l with
  | nil => simp [scanSet]
  | cons b rest ih =>
    simp only [scanSet]
    split
    · next hb =>
      simp only [Prod.snd]
      constructor
      · intro h; cases h
      · intro h
        exact absurd (beq_iff_eq.mp hb) (h b (by simp))
    · next hb =>
      simp only [Prod.snd, Option.map_eq_none', ih]
      constructor
      · intro h b' hb'
        rcases List.mem_cons.mp hb' with rfl | hm
        · intro hc; exact hb (by simp [hc])
        · exact h b' hm
      · intro h b' hb'
        exact h b' (List.mem_cons_of_mem _ hb')

theorem scanSet_empty_spec (t : Nat) :
    ∀ (l : List CacheBlock) (e : Nat), (scanSet t l).1 = some e →
      e < l.length ∧ (l.getD e default).valid = false := by
  intro l
  induction l with
  | nil => intro e h; simp [scanSet] at h
  | cons b rest ih =>
    intro e h
    simp only [scanSet] at h
    split at h <;>
    · simp only [Prod.fst] at h
      split at h
      · first
        | (cases h)
        | (simp only [Option.map_eq_some'] at h
           obtain ⟨e', he', rfl⟩ := h
           obtain ⟨h1, h2⟩ := ih e' he'
           exact ⟨by simpa using h1, by simpa [List.getD] using h2⟩)
      · next hv =>
        cases h
        simp only [List.length_cons]
        exact ⟨Nat.succ_pos _, by simpa using Bool.not_eq_true _ ▸ (by simpa using hv)⟩

/-! ## The access-history oracle (claim C8) -/

/-- The access history produced by presenting the block addresses of `pres`
in order to `Cache::is_accessed`, starting from the empty history. -/
def runHistory (pres : List Nat) : List Nat :=
  pres.foldl (fun l ba => (isAccessed l ba).2) []

theorem runHistory_mem_iff (pres : List Nat) (x : Nat) :
    x ∈ runHistory pres ↔ x ∈ pres := by
  suffices h : ∀ l, x ∈ pres.foldl (fun l ba => (isAccessed l ba).2) l ↔ x ∈ l ∨ x ∈ pres by
    simpa [runHistory] using h []
  induction pres with
  | nil => simp
  | cons ba rest ih =>
    intro l
    simp only [List.foldl_cons, ih, isAccessed_snd_mem_iff, List.mem_cons]
    tauto

/-! ## Claims C1 and C2: the search does not consult the valid flag -/

/-- **C1** (status: code bug, evaluated at the failing input).  The claim says
an invalid block is never reported as a tag match.  The search loop of the
associative `read`/`write` compares only `block->tag == addr_tag` and never
checks `block->valid`, and `CacheBlock::CacheBlock` leaves `tag`
uninitialized.  Concretely: a fully associative cache with 2 one-byte blocks
whose residual (uninitialized) tags are 0, reading address `0x0` (tag 0):
the search reports a tag match at way 0 even though that block is invalid,
so the access resolves through the hit path and — contrary to the claim's
empty-slot-fill requirement — every block of the cache is still invalid after
the read, although the compulsory miss was counted. -/
theorem C1_invalid_block_reported_as_match :
    (scanSet 0 (FullyAssocCache.create 2 1 CacheReplacement.LRU (fun _ => 0)).cache_blocks).2
        = some 0 ∧
    ((FullyAssocCache.create 2 1 CacheReplacement.LRU
        (fun _ => 0)).cache_blocks.getD 0 default).valid = false ∧
    (FullyAssocCache.read (FullyAssocCache.create 2 1 CacheReplacement.LRU (fun _ => 0))
        0 0).cache_blocks.all (fun b => !b.valid) = true ∧
    (FullyAssocCache.read (FullyAssocCache.create 2 1 CacheReplacement.LRU (fun _ => 0))
        0 0).access_info.compulsory_misses = 1 := by
  decide

/-- **C2** (status: code bug, evaluated at the failing input).  The claim says
a block whose valid flag is false never has its dirty flag set.  Writing
address `0x0` to a fresh fully associative cache whose residual uninitialized
tags are 0 resolves — via the valid-blind tag match of C1 — to an invalid
block and then sets that block's dirty flag, so the state {valid = false,
dirty = true}, outside the claimed three-state machine, is reached. -/
theorem C2_invalid_dirty_state_reachable :
    (FullyAssocCache.write (FullyAssocCache.create 2 1 CacheReplacement.LRU (fun _ => 0))
        0 0).cache_blocks.any (fun b => b.dirty && !b.valid) = true := by
  decide

/-! ## Claim C8: the access-history membership operation -/

theorem runHistory_contains (pres : List Nat) (ba : Nat) :
    (runHistory pres).contains ba = decide (ba ∈ pres) := by
  rw [Bool.eq_iff_iff]
  simp [List.elem_iff, runHistory_mem_iff]

/-- **C8** (confirmed).  After presenting the block addresses `pres` in order
(starting from the empty history), presenting `ba` returns `true` exactly when
`ba` occurred in some earlier call; on a first presentation it returns `false`
and the history grows by exactly one entry (`ba` is appended), and on a
repeated presentation the history is unchanged (so it never grows again for
the same block address). -/
theorem C8_record_and_check (pres : List Nat) (ba : Nat) :
    (isAccessed (runHistory pres) ba).1 = decide (ba ∈ pres) ∧
    (isAccessed (runHistory pres) ba).2 =
      (if ba ∈ pres then runHistory pres else runHistory pres ++ [ba]) ∧
    (isAccessed (runHistory pres) ba).2.length =
      (runHistory pres).length + (if ba ∈ pres then 0 else 1) := by
  have hcont := runHistory_contains pres ba
  refine ⟨by rw [isAccessed_fst, hcont], ?_, ?_⟩ <;>
    · simp only [isAccessed, hcont]
      by_cases h : ba ∈ pres <;> simp [h]

/-! ## Pseudo-LRU victim walk: claims C6 and C10 -/

/-- The pseudo-LRU victim selection exactly as the specification words it:
start at tree-array index 0; while the current index is an internal node
(index < ways-1), a stored bit 0 moves to the left child `2*i+1` and a
nonzero bit to the right child `2*i+2`; on reaching index ≥ ways-1 return
`index - (ways - 1)` as the way number. -/
def specPlruDescend (bits : List Int) (ways : Nat) (i : Nat) : Nat :=
  if _h : i < ways - 1 then
    specPlruDescend bits ways (if bits.getD i 0 = 0 then 2 * i + 1 else 2 * i + 2)
  else i - (ways - 1)
termination_by ways - 1 - i
decreasing_by
  split <;> omega

theorem specPlruDescend_eq_plruTraverse (bits : List Int) (ways : Nat) (i : Nat) :
    specPlruDescend bits ways i = plruTraverse bits ways i - (ways - 1) := by
  induction i using specPlruDescend.induct bits ways with
  | case1 i h ih =>
      rw [specPlruDescend, plruTraverse]
      simp only [dif_pos h]
      exact ih
  | case2 i h =>
      rw [specPlruDescend, plruTraverse]
      simp only [dif_neg h]

theorem plruTraverse_ge (m : List Int) (ways : Nat) (i : Nat) :
    ways - 1 ≤ plruTraverse m ways i := by
  induction i using plruTraverse.induct m ways with
  | case1 i h ih => rw [plruTraverse]; simpa [dif_pos h] using ih
  | case2 i h => rw [plruTraverse]; simp only [dif_neg h]; omega

theorem plruTraverse_le (m : List Int) (ways : Nat) (i : Nat)
    (hi : i ≤ 2 * ways - 2) : plruTraverse m ways i ≤ 2 * ways - 2 := by
  induction i using plruTraverse.induct m ways with
  | case1 i h ih =>
      rw [plruTraverse]
      simp only [dif_pos h]
      apply ih
      split <;> omega
  | case2 i h => rw [plruTraverse]; simpa [dif_neg h] using hi

theorem plruTraverseFuel_eq (m : List Int) (ways : Nat) :
    ∀ (fuel i : Nat), ways - 1 - i ≤ fuel →
      plruTraverseFuel m ways fuel i = some (plruTraverse m ways i) := by
  intro fuel
  induction fuel with
  | zero =>
      intro i hi
      rw [plruTraverseFuel, plruTraverse]
      have h : ¬ i < ways - 1 := by omega
      simp [h]
  | succ fuel ih =>
      intro i hi
      rw [plruTraverseFuel, plruTraverse]
      by_cases h : i < ways - 1
      · simp only [if_pos h, dif_pos h]
        apply ih
        split <;> omega
      · simp [h]

/-- **C6** (confirmed).  For the PSEUDO_LRU policy (with at least one way),
`get_victim_index` returns exactly the way reached by the bit-directed walk
described in the specification (`specPlruDescend` from the root), and it is a
pure selection: the result does not depend on the threaded `rand()` value
(the only stateful input an access supplies), and — `get_victim_index` being a
function of the unmodified `CacheReplace` state — repeated calls with no
intervening `mark_accessed` return the same way. -/
theorem C6_plru_choose_victim_pure (r : CacheReplace) (set_index : Nat)
    (rnd rnd' : Nat)
    (hpol : r.replacement_policy = CacheReplacement.PSEUDO_LRU)
    (hw : 1 ≤ r.ways) :
    r.get_victim_index set_index rnd
        = specPlruDescend (r.meta_data.getD set_index []) r.ways 0 ∧
    r.get_victim_index set_index rnd = r.get_victim_index set_index rnd' := by
  constructor
  · simp only [CacheReplace.get_victim_index, hpol]
    rw [specPlruDescend_eq_plruTraverse]
    have := plruTraverse_ge (r.meta_data.getD set_index []) r.ways 0
    omega
  · simp only [CacheReplace.get_victim_index, hpol]

/-- Witness for C6: a fresh 4-way pseudo-LRU tree; the walk follows the zero
bits to leaf 3 and returns way 0 whatever the random value is. -/
theorem C6_plru_choose_victim_pure_witness :
    (CacheReplace.create CacheReplacement.PSEUDO_LRU 1 4).get_victim_index 0 17
        = specPlruDescend
            (((CacheReplace.create CacheReplacement.PSEUDO_LRU 1 4).meta_data).getD 0 [])
            4 0 ∧
    (CacheReplace.create CacheReplacement.PSEUDO_LRU 1 4).get_victim_index 0 17
        = (CacheReplace.create CacheReplacement.PSEUDO_LRU 1 4).get_victim_index 0 5 := by
  exact C6_plru_choose_victim_pure (CacheReplace.create CacheReplacement.PSEUDO_LRU 1 4)
    0 17 5 (by decide) (by decide)

/-- **C10** (confirmed).  For a power-of-two number of ways (at least 2) and
any contents of the metadata cells, the pseudo-LRU victim walk terminates —
the fuel-bounded rendition of the `while` loop, given one unit of fuel per
iteration up to `ways`, reaches the exit condition rather than exhausting its
fuel (the tree index strictly increases toward a leaf) — and the way returned
by `get_victim_index` lies in `[0, ways)`. -/
theorem C10_plru_walk_terminates_in_range (r : CacheReplace) (set_index rnd : Nat)
    (hpol : r.replacement_policy = CacheReplacement.PSEUDO_LRU)
    (hw : 2 ≤ r.ways) (hpow : ∃ k, r.ways = 2 ^ k) :
    plruTraverseFuel (r.meta_data.getD set_index []) r.ways r.ways 0
        = some (plruTraverse (r.meta_data.getD set_index []) r.ways 0) ∧
    r.get_victim_index set_index rnd < r.ways := by
  refine ⟨plruTraverseFuel_eq _ _ _ _ (by omega), ?_⟩
  simp only [CacheReplace.get_victim_index, hpol]
  have h1 := plruTraverse_le (r.meta_data.getD set_index []) r.ways 0 (by omega)
  omega

/-- Witness for C10 at a concrete 4-way tree with nonzero bits. -/
theorem C10_plru_walk_terminates_in_range_witness :
    plruTraverseFuel ((CacheReplace.create CacheReplacement.PSEUDO_LRU 2 4).meta_data.getD 1 [])
        4 4 0
      = some (plruTraverse
          ((CacheReplace.create CacheReplacement.PSEUDO_LRU 2 4).meta_data.getD 1 []) 4 0) ∧
    (CacheReplace.create CacheReplacement.PSEUDO_LRU 2 4).get_victim_index 1 9 < 4 := by
  exact C10_plru_walk_terminates_in_range
    (CacheReplace.create CacheReplacement.PSEUDO_LRU 2 4) 1 9 (by decide) (by decide)
    ⟨2, by decide⟩

/-! ## Pseudo-LRU metadata update: claim C7 -/

/-- The ancestors of tree-array node `i`, listed from the node's parent up to
(and including) the root, as the specification describes the toggle path. -/
def ancestorChain (i : Nat) : List Nat :=
  if i = 0 then [] else ((i - 1) / 2) :: ancestorChain ((i - 1) / 2)
termination_by i
decreasing_by
  omega

theorem ancestorChain_lt {i : Nat} : ∀ j ∈ ancestorChain i, j < i := by
  induction i using Nat.strong_induction_on with
  | _ i ih =>
    intro j hj
    rw [ancestorChain] at hj
    split at hj
    · cases hj
    · next h0 =>
      rcases List.mem_cons.mp hj with rfl | hm
      · omega
      · exact Nat.lt_trans (ih ((i - 1) / 2) (by omega) j hm) (by omega)

theorem plruToggleLoop_length (m : List Int) (i : Nat) :
    (plruToggleLoop m i).length = m.length := by
  induction m, i using plruToggleLoop.induct with
  | case1 m i hp => rw [plruToggleLoop]; simp [hp, toggleCell]
  | case2 m i hp ih =>
      rw [plruToggleLoop]
      simp only [if_neg hp]
      simpa [toggleCell] using ih

/-- Cell-level characterization of the ancestor-toggle loop: starting the loop
at node `i ≥ 1` (with `i` within the array) toggles exactly the cells on
`ancestorChain i` — each new value being the logical NOT of the old — and
leaves every other cell unchanged. -/
theorem plruToggleLoop_getD (m : List Int) (i : Nat)
    (h1 : 1 ≤ i) (h2 : i ≤ m.length) (j : Nat) :
    (plruToggleLoop m i).getD j 0 =
      if j ∈ ancestorChain i then (if m.getD j 0 = 0 then 1 else 0)
      else m.getD j 0 := by
  induction m, i using plruToggleLoop.induct generalizing j with
  | case1 m i hp =>
      have hch : ancestorChain i = [0] := by
        rw [ancestorChain, if_neg (by omega : ¬ i = 0), hp, ancestorChain]
        simp
      rw [plruToggleLoop]
      simp only [if_pos hp, hch, toggleCell, hp, List.mem_singleton]
      by_cases hj : j = 0
      · subst hj
        simp only [if_pos rfl]
        exact getD_set_self (by omega)
      · simp only [if_neg hj]
        exact getD_set_ne (fun h => hj h.symm)
  | case2 m i hp ih =>
      have hch : ancestorChain i = (i - 1) / 2 :: ancestorChain ((i - 1) / 2) := by
        rw [ancestorChain, if_neg (by omega : ¬ i = 0)]
      have hlen : (toggleCell m ((i - 1) / 2)).length = m.length := by
        simp [toggleCell]
      have hplt : (i - 1) / 2 < i := by omega
      rw [plruToggleLoop]
      simp only [if_neg hp]
      rw [ih (by omega) (by omega) j, hch]
      have hpmem : (i - 1) / 2 ∉ ancestorChain ((i - 1) / 2) :=
        fun hmm => absurd (ancestorChain_lt _ hmm) (by omega)
      by_cases hj : j = (i - 1) / 2
      · subst hj
        simp only [if_neg hpmem, List.mem_cons, toggleCell]
        rw [getD_set_self (by omega)]
        simp
      · have hset : (toggleCell m ((i - 1) / 2)).getD j 0 = m.getD j 0 := by
          rw [toggleCell]
          exact getD_set_ne (fun h => hj h.symm)
        by_cases hjm : j ∈ ancestorChain ((i - 1) / 2)
        · simp only [if_pos hjm, List.mem_cons, if_pos (Or.inr hjm), hset]
        · simp only [if_neg hjm, hset, List.mem_cons]
          rw [if_neg (by rintro (rfl | hc) <;> [exact hj rfl; exact hjm hc])]

/-- **C7** (confirmed).  For the PSEUDO_LRU policy with `ways ≥ 2`, an
in-range way index and a well-formed metadata row of `2*ways-1` cells,
`mark_accessed` writes the accessed block's tag into leaf cell
`block_index + ways - 1` of the set's metadata row, toggles (logical NOT,
unconditionally) the bit of every ancestor of that leaf from the leaf's
parent up to and including the root, and leaves every other metadata cell,
every other set's row, and all block states unchanged. -/
theorem C7_plru_mark_accessed (r : CacheReplace) (set_index : Nat)
    (data : List CacheBlock) (block_index : Nat)
    (hpol : r.replacement_policy = CacheReplacement.PSEUDO_LRU)
    (hw : 2 ≤ r.ways) (hbi : block_index < r.ways)
    (hlen : (r.meta_data.getD set_index []).length = 2 * r.ways - 1) :
    (r.mark_accessed set_index data block_index).1 = data ∧
    ((r.mark_accessed set_index data block_index).2.meta_data.getD set_index []).getD
        (block_index + r.ways - 1) 0 = ((data.getD block_index default).tag : Int) ∧
    (∀ j ∈ ancestorChain (block_index + r.ways - 1),
      ((r.mark_accessed set_index data block_index).2.meta_data.getD set_index []).getD j 0 =
        (if (r.meta_data.getD set_index []).getD j 0 = 0 then 1 else 0)) ∧
    (∀ j < 2 * r.ways - 1, j ≠ block_index + r.ways - 1 →
      j ∉ ancestorChain (block_index + r.ways - 1) →
      ((r.mark_accessed set_index data block_index).2.meta_data.getD set_index []).getD j 0 =
        (r.meta_data.getD set_index []).getD j 0) ∧
    (∀ si < r.meta_data.length, si ≠ set_index →
      (r.mark_accessed set_index data block_index).2.meta_data.getD si [] =
        r.meta_data.getD si []) := by
  have hsi : set_index < r.meta_data.length := by
    by_contra hc
    rw [getD_oob (by omega)] at hlen
    simp at hlen
    omega
  set m := r.meta_data.getD set_index [] with hm
  set leaf := block_index + r.ways - 1 with hleaf
  have hleaf' : r.ways - 1 + block_index = leaf := by omega
  have hleaflt : leaf < m.length := by omega
  set m1 := m.set leaf ((data.getD block_index default).tag : Int) with hm1
  have hm1len : m1.length = m.length := by simp [hm1]
  have hchar := plruToggleLoop_getD m1 leaf (by omega) (by omega)
  have hchlt : ∀ j ∈ ancestorChain leaf, j < leaf := fun j hj => ancestorChain_lt j hj
  simp only [CacheReplace.mark_accessed, hpol]
  rw [hleaf']
  have hround : ((r.meta_data.set set_index (plruToggleLoop m1 leaf)).getD set_index [])
      = plruToggleLoop m1 leaf := getD_set_self hsi
  refine ⟨trivial, ?_, ?_, ?_, ?_⟩
  · show ((r.meta_data.set set_index (plruToggleLoop m1 leaf)).getD set_index []).getD leaf 0
        = ((data.getD block_index default).tag : Int)
    rw [hround, hchar leaf]
    have : leaf ∉ ancestorChain leaf := fun h => absurd (hchlt leaf h) (by omega)
    rw [if_neg this, hm1, getD_set_self hleaflt]
  · intro j hj
    show ((r.meta_data.set set_index (plruToggleLoop m1 leaf)).getD set_index []).getD j 0 = _
    rw [hround, hchar j, if_pos hj, hm1, getD_set_ne (by have := hchlt j hj; omega)]
  · intro j _hj hne hnm
    show ((r.meta_data.set set_index (plruToggleLoop m1 leaf)).getD set_index []).getD j 0 = _
    rw [hround, hchar j, if_neg hnm, hm1, getD_set_ne (fun h => hne h.symm)]
  · intro si _hsi hne
    show ((r.meta_data.set set_index (plruToggleLoop m1 leaf)).getD si []) = _
    rw [getD_set_ne (fun h => hne h.symm)]

/-- Witness for C7: marking way 2 of a fresh 4-way pseudo-LRU set leaves the
block contents unchanged. -/
theorem C7_plru_mark_accessed_witness :
    ((CacheReplace.create CacheReplacement.PSEUDO_LRU 2 4).mark_accessed 1
      [⟨7, false, true⟩, ⟨8, false, true⟩, ⟨9, false, true⟩, ⟨3, false, true⟩] 2).1
      = [⟨7, false, true⟩, ⟨8, false, true⟩, ⟨9, false, true⟩, ⟨3, false, true⟩] :=
  (C7_plru_mark_accessed (CacheReplace.create CacheReplacement.PSEUDO_LRU 2 4) 1
    [⟨7, false, true⟩, ⟨8, false, true⟩, ⟨9, false, true⟩, ⟨3, false, true⟩] 2
    (by decide) (by decide) (by decide) (by decide)).1

/-! ## Claim C3: miss classification sums to the miss counter -/

/-- The claimed counter invariant: every cache miss is attributed to exactly
one of the three categories. -/
def missInv (i : AccessInfo) : Prop :=
  i.compulsory_misses + i.capacity_misses + i.conflict_misses = i.cache_misses

theorem faRead_missInv (c : FullyAssocCache) (a rnd : Nat)
    (h : missInv c.access_info) : missInv (c.read a rnd).access_info := by
  unfold missInv at *
  simp only [FullyAssocCache.read]
  repeat' split
  all_goals simp only []
  all_goals omega

theorem faWrite_missInv (c : FullyAssocCache) (a rnd : Nat)
    (h : missInv c.access_info) : missInv (c.write a rnd).access_info := by
  unfold missInv at *
  simp only [FullyAssocCache.write]
  repeat' split
  all_goals simp only []
  all_goals omega

theorem dmRead_missInv (c : DirectMappedCache) (a : Nat)
    (h : missInv c.access_info) : missInv (c.read a).access_info := by
  unfold missInv at *
  simp only [DirectMappedCache.read]
  repeat' split
  all_goals simp only []
  all_goals omega

theorem dmWrite_missInv (c : DirectMappedCache) (a : Nat)
    (h : missInv c.access_info) : missInv (c.write a).access_info := by
  unfold missInv at *
  simp only [DirectMappedCache.write]
  repeat' split
  all_goals simp only []
  all_goals omega

theorem saRead_missInv (c : SetAssocCache) (a rnd : Nat)
    (h : missInv c.access_info) : missInv (c.read a rnd).access_info := by
  unfold missInv at *
  simp only [SetAssocCache.read]
  repeat' split
  all_goals simp only []
  all_goals omega

theorem saWrite_missInv (c : SetAssocCache) (a rnd : Nat)
    (h : missInv c.access_info) : missInv (c.write a rnd).access_info := by
  unfold missInv at *
  simp only [SetAssocCache.write]
  repeat' split
  all_goals simp only []
  all_goals omega

theorem runFA_missInv (trace : List (AccessOp × Nat × Nat)) :
    ∀ (c : FullyAssocCache), missInv c.access_info →
      missInv (runFA c trace).access_info := by
  induction trace with
  | nil => intro c h; exact h
  | cons e rest ih =>
      intro c h
      rcases e with ⟨op, a, rnd⟩
      cases op
      · exact ih _ (faRead_missInv c a rnd h)
      · exact ih _ (faWrite_missInv c a rnd h)

theorem runDM_missInv (trace : List (AccessOp × Nat × Nat)) :
    ∀ (c : DirectMappedCache), missInv c.access_info →
      missInv (runDM c trace).access_info := by
  induction trace with
  | nil => intro c h; exact h
  | cons e rest ih =>
      intro c h
      rcases e with ⟨op, a, rnd⟩
      cases op
      · exact ih _ (dmRead_missInv c a h)
      · exact ih _ (dmWrite_missInv c a h)

theorem runSA_missInv (trace : List (AccessOp × Nat × Nat)) :
    ∀ (c : SetAssocCache), missInv c.access_info →
      missInv (runSA c trace).access_info := by
  induction trace with
  | nil => intro c h; exact h
  | cons e rest ih =>
      intro c h
      rcases e with ⟨op, a, rnd⟩
      cases op
      · exact ih _ (saRead_missInv c a rnd h)
      · exact ih _ (saWrite_missInv c a rnd h)

/-- **C3** (confirmed).  For every geometry, policy, residual (uninitialized)
tag assignment and every read/write trace, each of the three cache
organizations maintains `compulsory_misses + capacity_misses + conflict_misses
= cache_misses` after every access (every trace is itself a prefix of a longer
trace, so the invariant quantified over all traces holds after each access). -/
theorem C3_miss_sum_invariant (cache_size block_size num_ways : Nat)
    (policy : CacheReplacement) (resF resD : Nat → Nat) (resS : Nat → Nat → Nat)
    (trace : List (AccessOp × Nat × Nat)) :
    missInv (runFA (FullyAssocCache.create cache_size block_size policy resF)
        trace).access_info ∧
    missInv (runDM (DirectMappedCache.create cache_size block_size resD)
        trace).access_info ∧
    missInv (runSA (SetAssocCache.create cache_size block_size num_ways policy resS)
        trace).access_info :=
  ⟨runFA_missInv trace _ rfl, runDM_missInv trace _ rfl, runSA_missInv trace _ rfl⟩

/-! ## Claim C4: attribution of eviction misses -/

theorem faRead_evict_attribution (c : FullyAssocCache) (a rnd : Nat)
    (hfound : (scanSet (a >>> (c.line_bits + c.index_bits)) c.cache_blocks).2 = none)
    (hempty : (scanSet (a >>> (c.line_bits + c.index_bits)) c.cache_blocks).1 = none) :
    (c.accessed_blocks.contains (a >>> c.line_bits) = true →
        (c.read a rnd).access_info.capacity_misses = c.access_info.capacity_misses + 1 ∧
        (c.read a rnd).access_info.conflict_misses = c.access_info.conflict_misses) ∧
    (c.accessed_blocks.contains (a >>> c.line_bits) = false →
        (c.read a rnd).access_info.capacity_misses = c.access_info.capacity_misses ∧
        (c.read a rnd).access_info.conflict_misses = c.access_info.conflict_misses ∧
        (c.read a rnd).access_info.compulsory_misses = c.access_info.compulsory_misses + 1) := by
  constructor <;> intro hprev <;>
  · simp only [FullyAssocCache.read, hfound, hempty, isAccessed_fst, hprev]
    repeat' split
    all_goals (try contradiction)
    all_goals simp_all

theorem faWrite_evict_attribution (c : FullyAssocCache) (a rnd : Nat)
    (hfound : (scanSet (a >>> (c.line_bits + c.index_bits)) c.cache_blocks).2 = none)
    (hempty : (scanSet (a >>> (c.line_bits + c.index_bits)) c.cache_blocks).1 = none) :
    (c.accessed_blocks.contains (a >>> c.line_bits) = true →
        (c.write a rnd).access_info.capacity_misses = c.access_info.capacity_misses + 1 ∧
        (c.write a rnd).access_info.conflict_misses = c.access_info.conflict_misses) ∧
    (c.accessed_blocks.contains (a >>> c.line_bits) = false →
        (c.write a rnd).access_info.capacity_misses = c.access_info.capacity_misses ∧
        (c.write a rnd).access_info.conflict_misses = c.access_info.conflict_misses ∧
        (c.write a rnd).access_info.compulsory_misses = c.access_info.compulsory_misses + 1) := by
  constructor <;> intro hprev <;>
  · simp only [FullyAssocCache.write, hfound, hempty, isAccessed_fst, hprev]
    repeat' split
    all_goals (try contradiction)
    all_goals simp_all

theorem dmRead_evict_attribution (c : DirectMappedCache) (a : Nat)
    (hvalid : (c.cache_blocks.getD ((a >>> c.line_bits) % c.num_blocks) default).valid = true)
    (htag : (c.cache_blocks.getD ((a >>> c.line_bits) % c.num_blocks) default).tag
        ≠ a >>> (c.line_bits + c.index_bits)) :
    (c.accessed_blocks.contains (a >>> c.line_bits) = true →
        (c.read a).access_info.conflict_misses = c.access_info.conflict_misses + 1 ∧
        (c.read a).access_info.capacity_misses = c.access_info.capacity_misses) ∧
    (c.accessed_blocks.contains (a >>> c.line_bits) = false →
        (c.read a).access_info.conflict_misses = c.access_info.conflict_misses ∧
        (c.read a).access_info.capacity_misses = c.access_info.capacity_misses ∧
        (c.read a).access_info.compulsory_misses = c.access_info.compulsory_misses + 1) := by
  constructor <;> intro hprev <;>
  · simp only [DirectMappedCache.read, isAccessed_fst, hprev, hvalid, htag]
    repeat' split
    all_goals (try contradiction)
    all_goals simp_all

theorem dmWrite_evict_attribution (c : DirectMappedCache) (a : Nat)
    (hvalid : (c.cache_blocks.getD ((a >>> c.line_bits) % c.num_blocks) default).valid = true)
    (htag : (c.cache_blocks.getD ((a >>> c.line_bits) % c.num_blocks) default).tag
        ≠ a >>> (c.line_bits + c.index_bits)) :
    (c.accessed_blocks.contains (a >>> c.line_bits) = true →
        (c.write a).access_info.conflict_misses = c.access_info.conflict_misses + 1 ∧
        (c.write a).access_info.capacity_misses = c.access_info.capacity_misses) ∧
    (c.accessed_blocks.contains (a >>> c.line_bits) = false →
        (c.write a).access_info.conflict_misses = c.access_info.conflict_misses ∧
        (c.write a).access_info.capacity_misses = c.access_info.capacity_misses ∧
        (c.write a).access_info.compulsory_misses = c.access_info.compulsory_misses + 1) := by
  constructor <;> intro hprev <;>
  · simp only [DirectMappedCache.write, isAccessed_fst, hprev, hvalid, htag]
    repeat' split
    all_goals (try contradiction)
    all_goals simp_all

theorem saRead_evict_attribution (c : SetAssocCache) (a rnd : Nat)
    (hfound : (scanSet (a >>> (c.line_bits + c.index_bits))
        (c.cache_blocks.getD ((a >>> c.line_bits) % c.num_sets) [])).2 = none)
    (hempty : (scanSet (a >>> (c.line_bits + c.index_bits))
        (c.cache_blocks.getD ((a >>> c.line_bits) % c.num_sets) [])).1 = none) :
    (c.accessed_blocks.contains (a >>> c.line_bits) = true →
        (c.read a rnd).access_info.capacity_misses = c.access_info.capacity_misses + 1 ∧
        (c.read a rnd).access_info.conflict_misses = c.access_info.conflict_misses) ∧
    (c.accessed_blocks.contains (a >>> c.line_bits) = false →
        (c.read a rnd).access_info.capacity_misses = c.access_info.capacity_misses ∧
        (c.read a rnd).access_info.conflict_misses = c.access_info.conflict_misses ∧
        (c.read a rnd).access_info.compulsory_misses = c.access_info.compulsory_misses + 1) := by
  constructor <;> intro hprev <;>
  · simp only [SetAssocCache.read, hfound, hempty, isAccessed_fst, hprev]
    repeat' split
    all_goals (try contradiction)
    all_goals simp_all

theorem saWrite_evict_attribution (c : SetAssocCache) (a rnd : Nat)
    (hfound : (scanSet (a >>> (c.line_bits + c.index_bits))
        (c.cache_blocks.getD ((a >>> c.line_bits) % c.num_sets) [])).2 = none)
    (hempty : (scanSet (a >>> (c.line_bits + c.index_bits))
        (c.cache_blocks.getD ((a >>> c.line_bits) % c.num_sets) [])).1 = none) :
    (c.accessed_blocks.contains (a >>> c.line_bits) = true →
        (c.write a rnd).access_info.capacity_misses = c.access_info.capacity_misses + 1 ∧
        (c.write a rnd).access_info.conflict_misses = c.access_info.conflict_misses) ∧
    (c.accessed_blocks.contains (a >>> c.line_bits) = false →
        (c.write a rnd).access_info.capacity_misses = c.access_info.capacity_misses ∧
        (c.write a rnd).access_info.conflict_misses = c.access_info.conflict_misses ∧
        (c.write a rnd).access_info.compulsory_misses = c.access_info.compulsory_misses + 1) := by
  constructor <;> intro hprev <;>
  · simp only [SetAssocCache.write, hfound, hempty, isAccessed_fst, hprev]
    repeat' split
    all_goals (try contradiction)
    all_goals simp_all

/-- **C4** (confirmed).  For every access that takes the eviction path (no tag
match and no invalid way in the target set — for direct-mapped: the sole
candidate block is valid with a differing tag): if the block address was
previously accessed, the miss is attributed as a conflict miss by the
direct-mapped cache and as a capacity miss by the fully associative and
set-associative caches (and not as the other category); if the block address
was never accessed before, neither conflict_misses nor capacity_misses
changes and only the compulsory counter (incremented earlier in the access)
records the miss.  Six conjuncts: direct-mapped read/write, fully associative
read/write, set-associative read/write. -/
theorem C4_eviction_miss_attribution :
    (∀ (c : DirectMappedCache) (a : Nat),
      (c.cache_blocks.getD ((a >>> c.line_bits) % c.num_blocks) default).valid = true →
      (c.cache_blocks.getD ((a >>> c.line_bits) % c.num_blocks) default).tag
          ≠ a >>> (c.line_bits + c.index_bits) →
      ((c.accessed_blocks.contains (a >>> c.line_bits) = true →
          (c.read a).access_info.conflict_misses = c.access_info.conflict_misses + 1 ∧
          (c.read a).access_info.capacity_misses = c.access_info.capacity_misses) ∧
       (c.accessed_blocks.contains (a >>> c.line_bits) = false →
          (c.read a).access_info.conflict_misses = c.access_info.conflict_misses ∧
          (c.read a).access_info.capacity_misses = c.access_info.capacity_misses ∧
          (c.read a).access_info.compulsory_misses = c.access_info.compulsory_misses + 1))) ∧
    (∀ (c : DirectMappedCache) (a : Nat),
      (c.cache_blocks.getD ((a >>> c.line_bits) % c.num_blocks) default).valid = true →
      (c.cache_blocks.getD ((a >>> c.line_bits) % c.num_blocks) default).tag
          ≠ a >>> (c.line_bits + c.index_bits) →
      ((c.accessed_blocks.contains (a >>> c.line_bits) = true →
          (c.write a).access_info.conflict_misses = c.access_info.conflict_misses + 1 ∧
          (c.write a).access_info.capacity_misses = c.access_info.capacity_misses) ∧
       (c.accessed_blocks.contains (a >>> c.line_bits) = false →
          (c.write a).access_info.conflict_misses = c.access_info.conflict_misses ∧
          (c.write a).access_info.capacity_misses = c.access_info.capacity_misses ∧
          (c.write a).access_info.compulsory_misses = c.access_info.compulsory_misses + 1))) ∧
    (∀ (c : FullyAssocCache) (a rnd : Nat),
      (scanSet (a >>> (c.line_bits + c.index_bits)) c.cache_blocks).2 = none →
      (scanSet (a >>> (c.line_bits + c.index_bits)) c.cache_blocks).1 = none →
      ((c.accessed_blocks.contains (a >>> c.line_bits) = true →
          (c.read a rnd).access_info.capacity_misses = c.access_info.capacity_misses + 1 ∧
          (c.read a rnd).access_info.conflict_misses = c.access_info.conflict_misses) ∧
       (c.accessed_blocks.contains (a >>> c.line_bits) = false →
          (c.read a rnd).access_info.capacity_misses = c.access_info.capacity_misses ∧
          (c.read a rnd).access_info.conflict_misses = c.access_info.conflict_misses ∧
          (c.read a rnd).access_info.compulsory_misses = c.access_info.compulsory_misses + 1))) ∧
    (∀ (c : FullyAssocCache) (a rnd : Nat),
      (scanSet (a >>> (c.line_bits + c.index_bits)) c.cache_blocks).2 = none →
      (scanSet (a >>> (c.line_bits + c.index_bits)) c.cache_blocks).1 = none →
      ((c.accessed_blocks.contains (a >>> c.line_bits) = true →
          (c.write a rnd).access_info.capacity_misses = c.access_info.capacity_misses + 1 ∧
          (c.write a rnd).access_info.conflict_misses = c.access_info.conflict_misses) ∧
       (c.accessed_blocks.contains (a >>> c.line_bits) = false →
          (c.write a rnd).access_info.capacity_misses = c.access_info.capacity_misses ∧
          (c.write a rnd).access_info.conflict_misses = c.access_info.conflict_misses ∧
          (c.write a rnd).access_info.compulsory_misses = c.access_info.compulsory_misses + 1))) ∧
    (∀ (c : SetAssocCache) (a rnd : Nat),
      (scanSet (a >>> (c.line_bits + c.index_bits))
          (c.cache_blocks.getD ((a >>> c.line_bits) % c.num_sets) [])).2 = none →
      (scanSet (a >>> (c.line_bits + c.index_bits))
          (c.cache_blocks.getD ((a >>> c.line_bits) % c.num_sets) [])).1 = none →
      ((c.accessed_blocks.contains (a >>> c.line_bits) = true →
          (c.read a rnd).access_info.capacity_misses = c.access_info.capacity_misses + 1 ∧
          (c.read a rnd).access_info.conflict_misses = c.access_info.conflict_misses) ∧
       (c.accessed_blocks.contains (a >>> c.line_bits) = false →
          (c.read a rnd).access_info.capacity_misses = c.access_info.capacity_misses ∧
          (c.read a rnd).access_info.conflict_misses = c.access_info.conflict_misses ∧
          (c.read a rnd).access_info.compulsory_misses = c.access_info.compulsory_misses + 1))) ∧
    (∀ (c : SetAssocCache) (a rnd : Nat),
      (scanSet (a >>> (c.line_bits + c.index_bits))
          (c.cache_blocks.getD ((a >>> c.line_bits) % c.num_sets) [])).2 = none →
      (scanSet (a >>> (c.line_bits + c.index_bits))
          (c.cache_blocks.getD ((a >>> c.line_bits) % c.num_sets) [])).1 = none →
      ((c.accessed_blocks.contains (a >>> c.line_bits) = true →
          (c.write a rnd).access_info.capacity_misses = c.access_info.capacity_misses + 1 ∧
          (c.write a rnd).access_info.conflict_misses = c.access_info.conflict_misses) ∧
       (c.accessed_blocks.contains (a >>> c.line_bits) = false →
          (c.write a rnd).access_info.capacity_misses = c.access_info.capacity_misses ∧
          (c.write a rnd).access_info.conflict_misses = c.access_info.conflict_misses ∧
          (c.write a rnd).access_info.compulsory_misses = c.access_info.compulsory_misses + 1))) :=
  ⟨fun c a h1 h2 => dmRead_evict_attribution c a h1 h2,
   fun c a h1 h2 => dmWrite_evict_attribution c a h1 h2,
   fun c a rnd h1 h2 => faRead_evict_attribution c a rnd h1 h2,
   fun c a rnd h1 h2 => faWrite_evict_attribution c a rnd h1 h2,
   fun c a rnd h1 h2 => saRead_evict_attribution c a rnd h1 h2,
   fun c a rnd h1 h2 => saWrite_evict_attribution c a rnd h1 h2⟩

/-- Witness for C4: a full (all-valid) one-way fully associative cache, read
of a fresh address with a non-matching tag; the eviction hypotheses hold and
the capacity counter stays at zero (first-ever access). -/
theorem C4_eviction_miss_attribution_witness :
    (FullyAssocCache.read
        { cache_size := 1, block_size := 1, num_blocks := 1, line_bits := 0
          index_bits := 0, access_info := AccessInfo.create
          cache_repl := CacheReplace.create CacheReplacement.LRU 1 1
          accessed_blocks := [], cache_blocks := [⟨0, false, true⟩] } 1 0).access_info.capacity_misses
      = 0 := by
  exact ((C4_eviction_miss_attribution.2.2.1
      { cache_size := 1, block_size := 1, num_blocks := 1, line_bits := 0
        index_bits := 0, access_info := AccessInfo.create
        cache_repl := CacheReplace.create CacheReplacement.LRU 1 1
        accessed_blocks := [], cache_blocks := [⟨0, false, true⟩] } 1 0
      (by decide) (by decide)).2 (by decide)).1

/-! ## Claim C9: write-then-read round trip -/

/-- **C9, counterexample to the claim as stated.**  The claim allows the read
to use any address with the same set index and tag as the written address.
On a fully associative cache of two one-byte blocks, writing address `0x0`
(block address 0, tag 0) and then reading address `0x1` (block address 1 — a
different block address with the same tag 0 and, trivially, the same single
set) produces an additional (compulsory) miss on the read, because the
simulator keys compulsory classification on the block address, which retains
one more low bit than the tag.  Both accesses carry tag 0, yet cache_misses
rises from 1 to 2. -/
theorem C9_same_mapping_read_misses :
    1 >>> ((FullyAssocCache.create 2 1 CacheReplacement.LRU (fun _ => 10)).line_bits
        + (FullyAssocCache.create 2 1 CacheReplacement.LRU (fun _ => 10)).index_bits)
      = 0 >>> ((FullyAssocCache.create 2 1 CacheReplacement.LRU (fun _ => 10)).line_bits
        + (FullyAssocCache.create 2 1 CacheReplacement.LRU (fun _ => 10)).index_bits) ∧
    (FullyAssocCache.write (FullyAssocCache.create 2 1 CacheReplacement.LRU (fun _ => 10)) 0 0).access_info.cache_misses = 1 ∧
    (FullyAssocCache.read (FullyAssocCache.write (FullyAssocCache.create 2 1 CacheReplacement.LRU (fun _ => 10)) 0 0) 1 0).access_info.cache_misses = 2 := by
  decide

theorem mem_eraseIdx_append {α : Type} [Inhabited α] :
    ∀ (l : List α) (i : Nat), i < l.length →
      ∀ b ∈ l, b ∈ l.eraseIdx i ++ [l.getD i default]
  | [], i, h => by simp at h
  | x :: xs, 0, _h => by
      intro b hb
      rcases List.mem_cons.mp hb with rfl | hm
      · simp
      · simp [hm]
  | x :: xs, i + 1, h => by
      intro b hb
      have hgd : (x :: xs).getD (i + 1) default = xs.getD i default := rfl
      rw [List.eraseIdx_cons_succ, List.cons_append, hgd]
      rcases List.mem_cons.mp hb with rfl | hm
      · exact List.mem_cons_self _ _
      · exact List.mem_cons_of_mem _ (mem_eraseIdx_append xs i (by simpa using h) b hm)

theorem markAccessed_mem (r : CacheReplace) (si : Nat) (data : List CacheBlock)
    (i : Nat) (hi : i < data.length) :
    ∀ b ∈ data, b ∈ (r.mark_accessed si data i).1 := by
  intro b hb
  rcases hr : r.replacement_policy with _ | _ | _ <;>
    simp only [CacheReplace.mark_accessed, hr]
  · exact hb
  · exact mem_eraseIdx_append data i hi b hb
  · exact hb

theorem mem_set_self {α : Type} {l : List α} {i : Nat} {v : α}
    (h : i < l.length) : v ∈ l.set i v := by
  have h' : i < (l.set i v).length := by simpa using h
  have he : (l.set i v).get ⟨i, h'⟩ = v := by
    simp [List.get_eq_getElem, List.getElem_set_self]
  have hm := List.get_mem (l.set i v) i h'
  rwa [he] at hm

theorem getVictimIndex_lt (r : CacheReplace) (si rnd : Nat) (h : 0 < r.ways) :
    r.get_victim_index si rnd < r.ways := by
  rcases hr : r.replacement_policy with _ | _ | _ <;>
    simp only [CacheReplace.get_victim_index, hr]
  · exact Nat.mod_lt _ h
  · exact h
  · have := plruTraverse_le (r.meta_data.getD si []) r.ways 0 (by omega)
    omega

theorem faWrite_geometry (c : FullyAssocCache) (a rnd : Nat) :
    (c.write a rnd).line_bits = c.line_bits ∧
    (c.write a rnd).index_bits = c.index_bits := by
  simp only [FullyAssocCache.write]
  repeat' split
  all_goals simp

theorem scanSet_found_of_mem (t : Nat) (l : List CacheBlock)
    (h : ∃ b ∈ l, b.tag = t) : ∃ f, (scanSet t l).2 = some f := by
  rcases hs : (scanSet t l).2 with _ | f
  · obtain ⟨b, hb, hbt⟩ := h
    exact absurd hbt ((scanSet_found_none_iff t l).mp hs b hb)
  · exact ⟨f, rfl⟩

theorem faWrite_resolve (c : FullyAssocCache) (a rnd : Nat)
    (hne : c.cache_blocks ≠ [])
    (hways : c.cache_repl.ways = c.cache_blocks.length) :
    (∃ b ∈ (c.write a rnd).cache_blocks,
        b.tag = a >>> (c.line_bits + c.index_bits) ∧ b.dirty = true) ∧
    (a >>> c.line_bits) ∈ (c.write a rnd).accessed_blocks := by
  have hlen : 0 < c.cache_blocks.length := List.length_pos.mpr hne
  simp only [FullyAssocCache.write]
  rcases hscan : (scanSet (a >>> (c.line_bits + c.index_bits)) c.cache_blocks).2 with _ | f
  · rcases hempty : (scanSet (a >>> (c.line_bits + c.index_bits)) c.cache_blocks).1 with _ | e
    · -- eviction path
      simp only [hscan, hempty]
      have hv : c.cache_repl.get_victim_index 0 rnd < c.cache_blocks.length := by
        have := getVictimIndex_lt c.cache_repl 0 rnd (by omega)
        omega
      refine ⟨⟨_, markAccessed_mem _ _ _ _ (by simpa using hv) _
          (mem_set_self (by simpa using hv)), ?_, rfl⟩, isAccessed_mem_self _ _⟩
      show ((c.cache_blocks.set _ _).getD _ default).tag = _
      rw [getD_set_self hv]
    · -- empty-slot fill path
      simp only [hscan, hempty]
      have he : e < c.cache_blocks.length := (scanSet_empty_spec _ _ _ hempty).1
      refine ⟨⟨_, markAccessed_mem _ _ _ _ (by simpa using he) _
          (mem_set_self (by simpa using he)), ?_, rfl⟩, isAccessed_mem_self _ _⟩
      show ((c.cache_blocks.set _ _).getD _ default).tag = _
      rw [getD_set_self he]
  · -- hit path
    simp only [hscan]
    obtain ⟨hf, hft⟩ := scanSet_found_spec _ _ _ hscan
    exact ⟨⟨_, markAccessed_mem _ _ _ _ (by simpa using hf) _
        (mem_set_self (by simpa using hf)), hft, rfl⟩, isAccessed_mem_self _ _⟩

theorem faRead_hit (c : FullyAssocCache) (a rnd : Nat) (f : Nat)
    (hfound : (scanSet (a >>> (c.line_bits + c.index_bits)) c.cache_blocks).2 = some f)
    (hprev : c.accessed_blocks.contains (a >>> c.line_bits) = true) :
    (c.read a rnd).access_info.cache_misses = c.access_info.cache_misses ∧
    (c.read a rnd).access_info.read_misses = c.access_info.read_misses ∧
    (c.read a rnd).cache_blocks = (c.cache_repl.mark_accessed 0 c.cache_blocks f).1 := by
  simp only [FullyAssocCache.read, hfound, isAccessed_fst, hprev]
  simp

theorem faWriteRead_roundtrip (c : FullyAssocCache) (a a' rnd rnd' : Nat)
    (hne : c.cache_blocks ≠ [])
    (hways : c.cache_repl.ways = c.cache_blocks.length)
    (hba : a' >>> c.line_bits = a >>> c.line_bits) :
    ((c.write a rnd).read a' rnd').access_info.cache_misses
        = (c.write a rnd).access_info.cache_misses ∧
    ((c.write a rnd).read a' rnd').access_info.read_misses
        = (c.write a rnd).access_info.read_misses ∧
    (∃ b ∈ ((c.write a rnd).read a' rnd').cache_blocks,
        b.tag = a >>> (c.line_bits + c.index_bits) ∧ b.dirty = true) := by
  obtain ⟨⟨b, hbm, hbt, hbd⟩, hacc⟩ := faWrite_resolve c a rnd hne hways
  obtain ⟨hlb, hib⟩ := faWrite_geometry c a rnd
  have htag : a' >>> ((c.write a rnd).line_bits + (c.write a rnd).index_bits)
      = a >>> (c.line_bits + c.index_bits) := by
    rw [hlb, hib, Nat.shiftRight_add, Nat.shiftRight_add, hba]
  have hbm' : ∃ bb ∈ (c.write a rnd).cache_blocks,
      bb.tag = a' >>> ((c.write a rnd).line_bits + (c.write a rnd).index_bits) := by
    exact ⟨b, hbm, by rw [htag, hbt]⟩
  obtain ⟨f, hf⟩ := scanSet_found_of_mem _ _ hbm'
  have hprev : (c.write a rnd).accessed_blocks.contains
      (a' >>> (c.write a rnd).line_bits) = true := by
    rw [hlb, hba]
    exact List.elem_iff.mpr hacc
  obtain ⟨h1, h2, h3⟩ := faRead_hit (c.write a rnd) a' rnd' f hf hprev
  refine ⟨h1, h2, ?_⟩
  rw [h3]
  have hflen : f < (c.write a rnd).cache_blocks.length :=
    (scanSet_found_spec _ _ _ hf).1
  exact ⟨b, markAccessed_mem _ _ _ _ hflen b hbm, hbt, hbd⟩

theorem dmWrite_resolve (c : DirectMappedCache) (a : Nat)
    (hidx : (a >>> c.line_bits) % c.num_blocks < c.cache_blocks.length) :
    (c.write a).cache_blocks.getD ((a >>> c.line_bits) % c.num_blocks) default
      = ⟨a >>> (c.line_bits + c.index_bits), true, true⟩ ∧
    (a >>> c.line_bits) ∈ (c.write a).accessed_blocks ∧
    (c.write a).line_bits = c.line_bits ∧
    (c.write a).index_bits = c.index_bits ∧
    (c.write a).num_blocks = c.num_blocks ∧
    (c.write a).cache_blocks.length = c.cache_blocks.length := by
  simp only [DirectMappedCache.write]
  repeat' split
  all_goals refine ⟨?_, isAccessed_mem_self _ _, rfl, rfl, rfl, by simp⟩
  all_goals rw [show ((a >>> c.line_bits) % c.num_blocks) =
    ((a >>> c.line_bits) % c.num_blocks) from rfl] at hidx
  all_goals rw [getD_set_self hidx]
  all_goals simp_all

theorem dmRead_hit (c : DirectMappedCache) (a : Nat)
    (hvalid : (c.cache_blocks.getD ((a >>> c.line_bits) % c.num_blocks) default).valid = true)
    (htagm : (c.cache_blocks.getD ((a >>> c.line_bits) % c.num_blocks) default).tag
        = a >>> (c.line_bits + c.index_bits))
    (hprev : c.accessed_blocks.contains (a >>> c.line_bits) = true) :
    (c.read a).access_info.cache_misses = c.access_info.cache_misses ∧
    (c.read a).access_info.read_misses = c.access_info.read_misses ∧
    (c.read a).cache_blocks = c.cache_blocks := by
  simp only [DirectMappedCache.read, isAccessed_fst, hprev, hvalid, htagm]
  simp

theorem dmWriteRead_roundtrip (c : DirectMappedCache) (a a' : Nat)
    (hlen : c.cache_blocks.length = c.num_blocks)
    (hnb : 0 < c.num_blocks)
    (hba : a' >>> c.line_bits = a >>> c.line_bits) :
    ((c.write a).read a').access_info.cache_misses
        = (c.write a).access_info.cache_misses ∧
    ((c.write a).read a').access_info.read_misses
        = (c.write a).access_info.read_misses ∧
    ((c.write a).read a').cache_blocks.getD ((a >>> c.line_bits) % c.num_blocks) default
      = ⟨a >>> (c.line_bits + c.index_bits), true, true⟩ := by
  have hidx : (a >>> c.line_bits) % c.num_blocks < c.cache_blocks.length := by
    rw [hlen]; exact Nat.mod_lt _ hnb
  obtain ⟨hblk, hacc, hlb, hib, hnbk, hblen⟩ := dmWrite_resolve c a hidx
  have hidx' : (a' >>> (c.write a).line_bits) % (c.write a).num_blocks
      = (a >>> c.line_bits) % c.num_blocks := by rw [hlb, hnbk, hba]
  have htag' : a' >>> ((c.write a).line_bits + (c.write a).index_bits)
      = a >>> (c.line_bits + c.index_bits) := by
    rw [hlb, hib, Nat.shiftRight_add, Nat.shiftRight_add, hba]
  have hvalid : ((c.write a).cache_blocks.getD
      ((a' >>> (c.write a).line_bits) % (c.write a).num_blocks) default).valid = true := by
    rw [hidx', hblk]
  have htagm : ((c.write a).cache_blocks.getD
      ((a' >>> (c.write a).line_bits) % (c.write a).num_blocks) default).tag
      = a' >>> ((c.write a).line_bits + (c.write a).index_bits) := by
    rw [hidx', hblk, htag']
  have hprev : (c.write a).accessed_blocks.contains
      (a' >>> (c.write a).line_bits) = true := by
    rw [hlb, hba]; exact List.elem_iff.mpr hacc
  obtain ⟨h1, h2, h3⟩ := dmRead_hit (c.write a) a' hvalid htagm hprev
  exact ⟨h1, h2, by rw [h3, hblk]⟩

theorem saWrite_resolve (c : SetAssocCache) (a rnd : Nat)
    (hsi : (a >>> c.line_bits) % c.num_sets < c.cache_blocks.length)
    (hsne : c.cache_blocks.getD ((a >>> c.line_bits) % c.num_sets) [] ≠ [])
    (hways : c.cache_repl.ways
        = (c.cache_blocks.getD ((a >>> c.line_bits) % c.num_sets) []).length) :
    (∃ b ∈ (c.write a rnd).cache_blocks.getD ((a >>> c.line_bits) % c.num_sets) [],
        b.tag = a >>> (c.line_bits + c.index_bits) ∧ b.dirty = true) ∧
    (a >>> c.line_bits) ∈ (c.write a rnd).accessed_blocks ∧
    (c.write a rnd).line_bits = c.line_bits ∧
    (c.write a rnd).index_bits = c.index_bits ∧
    (c.write a rnd).num_sets = c.num_sets ∧
    (c.write a rnd).cache_blocks.length = c.cache_blocks.length := by
  have hlen : 0 < (c.cache_blocks.getD ((a >>> c.line_bits) % c.num_sets) []).length :=
    List.length_pos.mpr hsne
  simp only [SetAssocCache.write]
  rcases hscan : (scanSet (a >>> (c.line_bits + c.index_bits))
      (c.cache_blocks.getD ((a >>> c.line_bits) % c.num_sets) [])).2 with _ | f
  · rcases hempty : (scanSet (a >>> (c.line_bits + c.index_bits))
        (c.cache_blocks.getD ((a >>> c.line_bits) % c.num_sets) [])).1 with _ | e
    · -- eviction path
      simp only [hscan, hempty]
      have hv : c.cache_repl.get_victim_index ((a >>> c.line_bits) % c.num_sets) rnd
          < (c.cache_blocks.getD ((a >>> c.line_bits) % c.num_sets) []).length := by
        have := getVictimIndex_lt c.cache_repl ((a >>> c.line_bits) % c.num_sets) rnd (by omega)
        omega
      refine ⟨?_, isAccessed_mem_self _ _, by simp, by simp, by simp, by simp⟩
      rw [getD_set_self (by simpa using hsi)]
      refine ⟨_, markAccessed_mem _ _ _ _ (by simpa using hv) _
          (mem_set_self (by simpa using hv)), ?_, rfl⟩
      show (((c.cache_blocks.getD ((a >>> c.line_bits) % c.num_sets) []).set _ _).getD
          _ default).tag = _
      rw [getD_set_self hv]
    · -- empty-slot fill path
      simp only [hscan, hempty]
      have he : e < (c.cache_blocks.getD ((a >>> c.line_bits) % c.num_sets) []).length :=
        (scanSet_empty_spec _ _ _ hempty).1
      refine ⟨?_, isAccessed_mem_self _ _, by simp, by simp, by simp, by simp⟩
      rw [getD_set_self (by simpa using hsi)]
      refine ⟨_, markAccessed_mem _ _ _ _ (by simpa using he) _
          (mem_set_self (by simpa using he)), ?_, rfl⟩
      show (((c.cache_blocks.getD ((a >>> c.line_bits) % c.num_sets) []).set _ _).getD
          _ default).tag = _
      rw [getD_set_self he]
  · -- hit path
    simp only [hscan]
    obtain ⟨hf, hft⟩ := scanSet_found_spec _ _ _ hscan
    refine ⟨?_, isAccessed_mem_self _ _, by simp, by simp, by simp, by simp⟩
    rw [getD_set_self (by simpa using hsi)]
    exact ⟨_, markAccessed_mem _ _ _ _ (by simpa using hf) _
        (mem_set_self (by simpa using hf)), hft, rfl⟩

theorem saRead_hit (c : SetAssocCache) (a rnd : Nat) (f : Nat)
    (hfound : (scanSet (a >>> (c.line_bits + c.index_bits))
        (c.cache_blocks.getD ((a >>> c.line_bits) % c.num_sets) [])).2 = some f)
    (hprev : c.accessed_blocks.contains (a >>> c.line_bits) = true) :
    (c.read a rnd).access_info.cache_misses = c.access_info.cache_misses ∧
    (c.read a rnd).access_info.read_misses = c.access_info.read_misses ∧
    (c.read a rnd).cache_blocks = c.cache_blocks.set ((a >>> c.line_bits) % c.num_sets)
      (c.cache_repl.mark_accessed ((a >>> c.line_bits) % c.num_sets)
        (c.cache_blocks.getD ((a >>> c.line_bits) % c.num_sets) []) f).1 := by
  simp only [SetAssocCache.read, hfound, isAccessed_fst, hprev]
  simp

theorem saWriteRead_roundtrip (c : SetAssocCache) (a a' rnd rnd' : Nat)
    (hsi : (a >>> c.line_bits) % c.num_sets < c.cache_blocks.length)
    (hsne : c.cache_blocks.getD ((a >>> c.line_bits) % c.num_sets) [] ≠ [])
    (hways : c.cache_repl.ways
        = (c.cache_blocks.getD ((a >>> c.line_bits) % c.num_sets) []).length)
    (hba : a' >>> c.line_bits = a >>> c.line_bits) :
    ((c.write a rnd).read a' rnd').access_info.cache_misses
        = (c.write a rnd).access_info.cache_misses ∧
    ((c.write a rnd).read a' rnd').access_info.read_misses
        = (c.write a rnd).access_info.read_misses ∧
    (∃ b ∈ ((c.write a rnd).read a' rnd').cache_blocks.getD
        ((a >>> c.line_bits) % c.num_sets) [],
        b.tag = a >>> (c.line_bits + c.index_bits) ∧ b.dirty = true) := by
  obtain ⟨⟨b, hbm, hbt, hbd⟩, hacc, hlb, hib, hns, hblen⟩ :=
    saWrite_resolve c a rnd hsi hsne hways
  have hsi' : (a' >>> (c.write a rnd).line_bits) % (c.write a rnd).num_sets
      = (a >>> c.line_bits) % c.num_sets := by rw [hlb, hns, hba]
  have htag' : a' >>> ((c.write a rnd).line_bits + (c.write a rnd).index_bits)
      = a >>> (c.line_bits + c.index_bits) := by
    rw [hlb, hib, Nat.shiftRight_add, Nat.shiftRight_add, hba]
  have hbm' : ∃ bb ∈ (c.write a rnd).cache_blocks.getD
      ((a' >>> (c.write a rnd).line_bits) % (c.write a rnd).num_sets) [],
      bb.tag = a' >>> ((c.write a rnd).line_bits + (c.write a rnd).index_bits) := by
    rw [hsi', htag']
    exact ⟨b, hbm, hbt⟩
  obtain ⟨f, hf⟩ := scanSet_found_of_mem _ _ hbm'
  have hprev : (c.write a rnd).accessed_blocks.contains
      (a' >>> (c.write a rnd).line_bits) = true := by
    rw [hlb, hba]
    exact List.elem_iff.mpr hacc
  obtain ⟨h1, h2, h3⟩ := saRead_hit (c.write a rnd) a' rnd' f hf hprev
  refine ⟨h1, h2, ?_⟩
  rw [h3, hsi']
  have hflen : f < ((c.write a rnd).cache_blocks.getD
      ((a >>> c.line_bits) % c.num_sets) []).length := by
    have := (scanSet_found_spec _ _ _ hf).1
    rwa [hsi'] at this
  rw [getD_set_self (by rw [hblen]; exact hsi)]
  exact ⟨b, markAccessed_mem _ _ _ _ hflen b hbm, hbt, hbd⟩

/-- **C9** (corrected).  Amended claim: for every cache organization, writing
an address and then reading an address with the same *block address* (which
entails the same set index and tag; the counterexample above shows that a
merely equal set-index/tag pair with a different block address does incur a
compulsory miss) produces no additional miss on the read — neither
cache_misses nor read_misses moves — and the read leaves the written block's
dirty flag set: the hit does not clear it, and the state still holds a valid
dirty block carrying the written tag.  The side conditions only demand a
well-formed geometry: a nonempty block array (direct-mapped: an in-range
index, associative: nonempty target set whose size matches the replacement
engine's `ways`). -/
theorem C9_write_read_roundtrip :
    (∀ (c : DirectMappedCache) (a a' : Nat),
      c.cache_blocks.length = c.num_blocks → 0 < c.num_blocks →
      a' >>> c.line_bits = a >>> c.line_bits →
      ((c.write a).read a').access_info.cache_misses
          = (c.write a).access_info.cache_misses ∧
      ((c.write a).read a').access_info.read_misses
          = (c.write a).access_info.read_misses ∧
      ((c.write a).read a').cache_blocks.getD ((a >>> c.line_bits) % c.num_blocks) default
        = ⟨a >>> (c.line_bits + c.index_bits), true, true⟩) ∧
    (∀ (c : FullyAssocCache) (a a' rnd rnd' : Nat),
      c.cache_blocks ≠ [] → c.cache_repl.ways = c.cache_blocks.length →
      a' >>> c.line_bits = a >>> c.line_bits →
      ((c.write a rnd).read a' rnd').access_info.cache_misses
          = (c.write a rnd).access_info.cache_misses ∧
      ((c.write a rnd).read a' rnd').access_info.read_misses
          = (c.write a rnd).access_info.read_misses ∧
      (∃ b ∈ ((c.write a rnd).read a' rnd').cache_blocks,
          b.tag = a >>> (c.line_bits + c.index_bits) ∧ b.dirty = true)) ∧
    (∀ (c : SetAssocCache) (a a' rnd rnd' : Nat),
      (a >>> c.line_bits) % c.num_sets < c.cache_blocks.length →
      c.cache_blocks.getD ((a >>> c.line_bits) % c.num_sets) [] ≠ [] →
      c.cache_repl.ways = (c.cache_blocks.getD ((a >>> c.line_bits) % c.num_sets) []).length →
      a' >>> c.line_bits = a >>> c.line_bits →
      ((c.write a rnd).read a' rnd').access_info.cache_misses
          = (c.write a rnd).access_info.cache_misses ∧
      ((c.write a rnd).read a' rnd').access_info.read_misses
          = (c.write a rnd).access_info.read_misses ∧
      (∃ b ∈ ((c.write a rnd).read a' rnd').cache_blocks.getD
          ((a >>> c.line_bits) % c.num_sets) [],
          b.tag = a >>> (c.line_bits + c.index_bits) ∧ b.dirty = true)) :=
  ⟨fun c a a' h1 h2 h3 => dmWriteRead_roundtrip c a a' h1 h2 h3,
   fun c a a' rnd rnd' h1 h2 h3 => faWriteRead_roundtrip c a a' rnd rnd' h1 h2 h3,
   fun c a a' rnd rnd' h1 h2 h3 h4 => saWriteRead_roundtrip c a a' rnd rnd' h1 h2 h3 h4⟩

/-- Witness for C9 (amended): fully associative cache of two one-byte blocks,
LRU, residual tags 10; write address 3, read address 3 back: the read adds no
miss. -/
theorem C9_write_read_roundtrip_witness :
    (FullyAssocCache.read
        (FullyAssocCache.write (FullyAssocCache.create 2 1 CacheReplacement.LRU (fun _ => 10)) 3 0)
        3 0).access_info.cache_misses
      = (FullyAssocCache.write (FullyAssocCache.create 2 1 CacheReplacement.LRU (fun _ => 10))
          3 0).access_info.cache_misses := by
  exact (C9_write_read_roundtrip.2.1
    (FullyAssocCache.create 2 1 CacheReplacement.LRU (fun _ => 10)) 3 3 0 0
    (by decide) (by decide) (by decide)).1

/-! ## Claim C5: the fully associative LRU eviction scenario -/

/-- **C5, counterexample to the claim as stated.**  The claim quantifies over
`W+1` *distinct block addresses*.  Because the tag drops `index_bits` more
bits than the block address, distinct block addresses can share a tag: with
`W = 2` (cache_size 2, block_size 1, so line_bits = 0, index_bits = 1), the
addresses 0, 1, 2 have distinct block addresses 0, 1, 2 but tags 0, 0, 1.
Accessing 0, 1, 2 and then re-accessing 0 produces NO capacity miss at all —
address 1 simply hits address 0's block — contradicting the claimed capacity
miss (and no eviction of the least-recently-touched address happens on the
re-access, which is a plain hit). -/
theorem C5_lru_scenario_counterexample :
    (0 >>> 0 ≠ (1 : Nat) >>> 0 ∧ 0 >>> 0 ≠ (2 : Nat) >>> 0 ∧ (1 : Nat) >>> 0 ≠ 2 >>> 0) ∧
    (runFA (FullyAssocCache.create 2 1 CacheReplacement.LRU (fun _ => 10))
      [(AccessOp.rd, 0, 0), (AccessOp.rd, 1, 0), (AccessOp.rd, 2, 0),
       (AccessOp.rd, 0, 0)]).access_info.capacity_misses = 0 := by
  decide

/-- A fully associative LRU read that fills the first (invalid) block: the
head of the block vector is an untouched residual block whose tag matches
nothing, no other block matches the tag, and the block address is new. -/
theorem faRead_fill_step (s : FullyAssocCache) (a rnd r0 : Nat)
    (rest : List CacheBlock)
    (hpol : s.cache_repl.replacement_policy = CacheReplacement.LRU)
    (hblocks : s.cache_blocks = CacheBlock.init r0 :: rest)
    (hr0 : r0 ≠ a >>> (s.line_bits + s.index_bits))
    (hnomatch : ∀ b ∈ rest, b.tag ≠ a >>> (s.line_bits + s.index_bits))
    (hprev : s.accessed_blocks.contains (a >>> s.line_bits) = false) :
    s.read a rnd = { s with
      access_info := { s.access_info with
        cache_access := s.access_info.cache_access + 1
        read_access := s.access_info.read_access + 1
        compulsory_misses := s.access_info.compulsory_misses + 1
        cache_misses := s.access_info.cache_misses + 1
        read_misses := s.access_info.read_misses + 1 }
      accessed_blocks := s.accessed_blocks ++ [a >>> s.line_bits]
      cache_blocks :=
        rest ++ [⟨a >>> (s.line_bits + s.index_bits), false, true⟩] } := by
  have hfound : (scanSet (a >>> (s.line_bits + s.index_bits)) s.cache_blocks).2 = none := by
    rw [scanSet_found_none_iff, hblocks]
    intro b hb
    rcases List.mem_cons.mp hb with rfl | hm
    · simpa [CacheBlock.init] using hr0
    · exact hnomatch b hm
  have hempty : (scanSet (a >>> (s.line_bits + s.index_bits)) s.cache_blocks).1 = some 0 := by
    rw [hblocks]
    simp only [scanSet]
    rw [if_neg (by simpa [CacheBlock.init] using hr0)]
    simp [CacheBlock.init]
  simp only [FullyAssocCache.read, hfound, hempty, isAccessed_fst, hprev, isAccessed]
  simp [CacheReplace.mark_accessed, hpol, hblocks, CacheBlock.init]

/-- A fully associative LRU read that evicts: every block is valid (and the
head — the LRU victim — is clean), no block matches the tag, and the block
address is new (first access): the victim is way 0 and no capacity miss is
charged. -/
theorem faRead_evict_step_new (s : FullyAssocCache) (a rnd : Nat)
    (b0 : CacheBlock) (rest : List CacheBlock)
    (hpol : s.cache_repl.replacement_policy = CacheReplacement.LRU)
    (hblocks : s.cache_blocks = b0 :: rest)
    (hvalid : ∀ b ∈ s.cache_blocks, b.valid = true)
    (hdirty0 : b0.dirty = false)
    (hnomatch : ∀ b ∈ s.cache_blocks, b.tag ≠ a >>> (s.line_bits + s.index_bits))
    (hprev : s.accessed_blocks.contains (a >>> s.line_bits) = false) :
    s.read a rnd = { s with
      access_info := { s.access_info with
        cache_access := s.access_info.cache_access + 1
        read_access := s.access_info.read_access + 1
        compulsory_misses := s.access_info.compulsory_misses + 1
        cache_misses := s.access_info.cache_misses + 1
        read_misses := s.access_info.read_misses + 1 }
      accessed_blocks := s.accessed_blocks ++ [a >>> s.line_bits]
      cache_blocks :=
        rest ++ [⟨a >>> (s.line_bits + s.index_bits), false, true⟩] } := by
  have hfound : (scanSet (a >>> (s.line_bits + s.index_bits)) s.cache_blocks).2 = none :=
    (scanSet_found_none_iff _ _).mpr hnomatch
  have hempty : (scanSet (a >>> (s.line_bits + s.index_bits)) s.cache_blocks).1 = none := by
    rcases hs : (scanSet (a >>> (s.line_bits + s.index_bits)) s.cache_blocks).1 with _ | e
    · rfl
    · have := (scanSet_empty_spec _ _ _ hs).2
      have hlt := (scanSet_empty_spec _ _ _ hs).1
      have hmem : s.cache_blocks.getD e default ∈ s.cache_blocks := by
        have : e < s.cache_blocks.length := hlt
        simp [List.getD, List.getElem?_eq_getElem this, List.getElem_mem this]
      rw [hvalid _ hmem] at this
      cases this
  have hvic : s.cache_repl.get_victim_index 0 rnd = 0 := by
    simp [CacheReplace.get_victim_index, hpol]
  simp only [FullyAssocCache.read, hfound, hempty, isAccessed_fst, hprev, isAccessed, hvic]
  simp [CacheReplace.mark_accessed, hpol, hblocks, hdirty0,
        hvalid b0 (by rw [hblocks]; exact List.mem_cons_self _ _)]

/-- The same eviction for a previously accessed block address: a capacity miss
is charged and the history does not grow. -/
theorem faRead_evict_step_old (s : FullyAssocCache) (a rnd : Nat)
    (b0 : CacheBlock) (rest : List CacheBlock)
    (hpol : s.cache_repl.replacement_policy = CacheReplacement.LRU)
    (hblocks : s.cache_blocks = b0 :: rest)
    (hvalid : ∀ b ∈ s.cache_blocks, b.valid = true)
    (hdirty0 : b0.dirty = false)
    (hnomatch : ∀ b ∈ s.cache_blocks, b.tag ≠ a >>> (s.line_bits + s.index_bits))
    (hprev : s.accessed_blocks.contains (a >>> s.line_bits) = true) :
    s.read a rnd = { s with
      access_info := { s.access_info with
        cache_access := s.access_info.cache_access + 1
        read_access := s.access_info.read_access + 1
        capacity_misses := s.access_info.capacity_misses + 1
        cache_misses := s.access_info.cache_misses + 1
        read_misses := s.access_info.read_misses + 1 }
      cache_blocks :=
        rest ++ [⟨a >>> (s.line_bits + s.index_bits), false, true⟩] } := by
  have hfound : (scanSet (a >>> (s.line_bits + s.index_bits)) s.cache_blocks).2 = none :=
    (scanSet_found_none_iff _ _).mpr hnomatch
  have hempty : (scanSet (a >>> (s.line_bits + s.index_bits)) s.cache_blocks).1 = none := by
    rcases hs : (scanSet (a >>> (s.line_bits + s.index_bits)) s.cache_blocks).1 with _ | e
    · rfl
    · have := (scanSet_empty_spec _ _ _ hs).2
      have hlt := (scanSet_empty_spec _ _ _ hs).1
      have hmem : s.cache_blocks.getD e default ∈ s.cache_blocks := by
        have : e < s.cache_blocks.length := hlt
        simp [List.getD, List.getElem?_eq_getElem this, List.getElem_mem this]
      rw [hvalid _ hmem] at this
      cases this
  have hvic : s.cache_repl.get_victim_index 0 rnd = 0 := by
    simp [CacheReplace.get_victim_index, hpol]
  simp only [FullyAssocCache.read, hfound, hempty, isAccessed_fst, hprev, isAccessed, hvic]
  simp [CacheReplace.mark_accessed, hpol, hblocks, hdirty0,
        hvalid b0 (by rw [hblocks]; exact List.mem_cons_self _ _)]

/-- The C5 scenario trace: reads of `a 0, …, a (k-1)` (the `rand()` value is
irrelevant under LRU and fixed to 0). -/
def fillTrace (a : Nat → Nat) (k : Nat) : List (AccessOp × Nat × Nat) :=
  (List.range k).map (fun j => (AccessOp.rd, a j, 0))

theorem fillTrace_succ (a : Nat → Nat) (k : Nat) :
    fillTrace a (k + 1) = fillTrace a k ++ [(AccessOp.rd, a k, 0)] := by
  simp [fillTrace, List.range_succ]

theorem runFA_append (c : FullyAssocCache) (t1 t2 : List (AccessOp × Nat × Nat)) :
    runFA c (t1 ++ t2) = runFA (runFA c t1) t2 := by
  simp [runFA, List.foldl_append]

theorem residMap_succ (residual : Nat → Nat) (k n : Nat) :
    (List.range (n + 1)).map (fun i => CacheBlock.init (residual (k + i)))
      = CacheBlock.init (residual k)
        :: (List.range n).map (fun i => CacheBlock.init (residual (k + 1 + i))) := by
  rw [List.range_succ_eq_map, List.map_cons, List.map_map]
  refine congrArg₂ _ (by simp) ?_
  apply List.map_congr_left
  intro i _
  simp only [Function.comp]
  congr 2
  omega

theorem runFA_single_rd (s : FullyAssocCache) (x rnd : Nat) :
    runFA s [(AccessOp.rd, x, rnd)] = s.read x rnd := rfl

/-- State of the fully associative LRU cache after the first `k` fills of the
C5 scenario: the `W - k` untouched residual blocks in front (in order), then
the `k` filled blocks in access order; `k` compulsory misses counted. -/
theorem faLRU_fill_phase (c : FullyAssocCache) (a : Nat → Nat)
    (W : Nat) (residual : Nat → Nat)
    (hpol : c.cache_repl.replacement_policy = CacheReplacement.LRU)
    (hblocks : c.cache_blocks
        = (List.range W).map (fun i => CacheBlock.init (residual i)))
    (hacc : c.accessed_blocks = [])
    (hinfo : c.access_info = AccessInfo.create)
    (hres : ∀ i < W, ∀ j < W + 1,
        residual i ≠ a j >>> (c.line_bits + c.index_bits))
    (hdist : ∀ i < W + 1, ∀ j < W + 1, i ≠ j →
        a i >>> (c.line_bits + c.index_bits) ≠ a j >>> (c.line_bits + c.index_bits)) :
    ∀ k, k ≤ W → runFA c (fillTrace a k) = { c with
      access_info := ⟨k, k, 0, k, k, 0, 0, k, 0, 0⟩
      accessed_blocks := (List.range k).map (fun j => a j >>> c.line_bits)
      cache_blocks :=
        ((List.range (W - k)).map (fun i => CacheBlock.init (residual (k + i))))
          ++ (List.range k).map (fun j =>
              (⟨a j >>> (c.line_bits + c.index_bits), false, true⟩ : CacheBlock)) } := by
  intro k
  induction k with
  | zero =>
      intro _
      rw [show fillTrace a 0 = [] from rfl]
      show c = _
      rcases c with ⟨cs, bs, nb, lb, ib, ai, cr, ab, cb⟩
      simp only [] at hinfo hacc hblocks
      subst hinfo hacc hblocks
      simp [AccessInfo.create]
  | succ k ih =>
      intro hk
      have hk' : k ≤ W := by omega
      rw [fillTrace_succ, runFA_append, ih hk']
      rw [runFA_single_rd]
      have hWk : W - k = (W - (k + 1)) + 1 := by omega
      rw [faRead_fill_step _ (a k) 0 (residual k)
          (((List.range (W - (k + 1))).map
              (fun i => CacheBlock.init (residual (k + 1 + i))))
            ++ (List.range k).map (fun j =>
                (⟨a j >>> (c.line_bits + c.index_bits), false, true⟩ : CacheBlock)))
          ?hpl ?hblk ?hr0 ?hnm ?hpr]
      case hpl => exact hpol
      case hblk =>
        show ((List.range (W - k)).map (fun i => CacheBlock.init (residual (k + i)))) ++ _ = _
        rw [hWk, residMap_succ]
        simp
      case hr0 =>
        show residual k ≠ a k >>> (c.line_bits + c.index_bits)
        exact hres k (by omega) k (by omega)
      case hnm =>
        intro b hb
        show b.tag ≠ a k >>> (c.line_bits + c.index_bits)
        rcases List.mem_append.mp hb with hm | hm
        · obtain ⟨i, hi, rfl⟩ := List.mem_map.mp hm
          have hiW : i < W - (k + 1) := List.mem_range.mp hi
          exact hres _ (by omega) k (by omega)
        · obtain ⟨j, hj, rfl⟩ := List.mem_map.mp hm
          have hjk : j < k := List.mem_range.mp hj
          exact hdist j (by omega) k (by omega) (by omega)
      case hpr =>
        show ((List.range k).map (fun j => a j >>> c.line_bits)).contains
            (a k >>> c.line_bits) = false
        rw [Bool.eq_false_iff]
        intro hcon
        obtain ⟨j, hj, hje⟩ := List.mem_map.mp (List.elem_iff.mp hcon)
        have hjk : j < k := List.mem_range.mp hj
        have : a j >>> (c.line_bits + c.index_bits)
            = a k >>> (c.line_bits + c.index_bits) := by
          rw [Nat.shiftRight_add, Nat.shiftRight_add, hje]
        exact hdist j (by omega) k (by omega) (by omega) this
      simp [List.range_succ, List.append_assoc]

theorem rangeMap_cons {α : Type} (f : Nat → α) (k n : Nat) :
    (List.range (n + 1)).map (fun i => f (k + i))
      = f k :: (List.range n).map (fun i => f (k + 1 + i)) := by
  rw [List.range_succ_eq_map, List.map_cons, List.map_map]
  refine congrArg₂ _ (by simp) ?_
  apply List.map_congr_left
  intro i _
  simp only [Function.comp]
  congr 1
  omega

theorem rangeMap_snoc {α : Type} (f : Nat → α) (k n : Nat) :
    (List.range n).map (fun i => f (k + i)) ++ [f (k + n)]
      = (List.range (n + 1)).map (fun i => f (k + i)) := by
  rw [List.range_succ, List.map_append]
  simp

/-- **C5** (corrected).  Amended claim: for a fully associative cache with `W
ways under true LRU, starting from an empty cache, accessing `W+1` block
addresses with PAIRWISE DISTINCT TAGS (the counterexample above shows that
distinct block addresses alone do not suffice, since the tag discards
`index_bits` more bits), where the residual uninitialized tags of the empty
blocks match none of the accessed tags: the victim is always way index 0 (the
front of the ordered sequence — `mark_accessed` moves each touched block to
the back); the `W+1`-st access evicts exactly the least-recently-touched tag
`t 0` (the surviving tags are `t 1 … t W` in recency order); no capacity miss
has been charged up to that point; and the re-access of the first address is
counted as a capacity miss (the counter becomes exactly 1) and evicts the
then-least-recently-touched tag `t 1`. -/
theorem C5_lru_eviction_scenario (c : FullyAssocCache) (a residual : Nat → Nat)
    (W : Nat) (hW : 1 ≤ W)
    (hpol : c.cache_repl.replacement_policy = CacheReplacement.LRU)
    (hblocks : c.cache_blocks
        = (List.range W).map (fun i => CacheBlock.init (residual i)))
    (hacc : c.accessed_blocks = [])
    (hinfo : c.access_info = AccessInfo.create)
    (hres : ∀ i < W, ∀ j < W + 1,
        residual i ≠ a j >>> (c.line_bits + c.index_bits))
    (hdist : ∀ i < W + 1, ∀ j < W + 1, i ≠ j →
        a i >>> (c.line_bits + c.index_bits) ≠ a j >>> (c.line_bits + c.index_bits)) :
    (∀ si rnd, c.cache_repl.get_victim_index si rnd = 0) ∧
    (runFA c (fillTrace a (W + 1))).cache_blocks.map CacheBlock.tag
      = (List.range W).map (fun j => a (1 + j) >>> (c.line_bits + c.index_bits)) ∧
    (runFA c (fillTrace a (W + 1))).access_info.capacity_misses = 0 ∧
    ((runFA c (fillTrace a (W + 1))).read (a 0) 0).access_info.capacity_misses = 1 ∧
    ((runFA c (fillTrace a (W + 1))).read (a 0) 0).cache_blocks.map CacheBlock.tag
      = ((List.range (W - 1)).map (fun j => a (2 + j) >>> (c.line_bits + c.index_bits)))
          ++ [a 0 >>> (c.line_bits + c.index_bits)] := by
  have hfill := faLRU_fill_phase c a W residual hpol hblocks hacc hinfo hres hdist W
    (Nat.le_refl W)
  have hWw : W = (W - 1) + 1 := by omega
  -- the state after the W fills, with its block list in cons form
  have hconsW : (List.range W).map (fun j =>
      (⟨a j >>> (c.line_bits + c.index_bits), false, true⟩ : CacheBlock))
      = (⟨a 0 >>> (c.line_bits + c.index_bits), false, true⟩ : CacheBlock)
        :: (List.range (W - 1)).map (fun j =>
            (⟨a (1 + j) >>> (c.line_bits + c.index_bits), false, true⟩ : CacheBlock)) := by
    have := rangeMap_cons (fun j =>
      (⟨a j >>> (c.line_bits + c.index_bits), false, true⟩ : CacheBlock)) 0 (W - 1)
    rw [hWw]
    simpa using this
  have hstepW : runFA c (fillTrace a (W + 1)) = { c with
      access_info := ⟨W + 1, W + 1, 0, W + 1, W + 1, 0, 0, W + 1, 0, 0⟩
      accessed_blocks := ((List.range W).map (fun j => a j >>> c.line_bits))
          ++ [a W >>> c.line_bits]
      cache_blocks := ((List.range (W - 1)).map (fun j =>
          (⟨a (1 + j) >>> (c.line_bits + c.index_bits), false, true⟩ : CacheBlock)))
        ++ [⟨a W >>> (c.line_bits + c.index_bits), false, true⟩] } := by
    rw [fillTrace_succ, runFA_append, runFA_single_rd, hfill]
    rw [faRead_evict_step_new _ (a W) 0
        (⟨a 0 >>> (c.line_bits + c.index_bits), false, true⟩ : CacheBlock)
        ((List.range (W - 1)).map (fun j =>
            (⟨a (1 + j) >>> (c.line_bits + c.index_bits), false, true⟩ : CacheBlock)))
        ?pl ?bl ?vl ?d0 ?nm ?pr]
    case pl => exact hpol
    case bl =>
      show (List.range (W - W)).map _ ++ (List.range W).map _ = _
      rw [Nat.sub_self]
      simpa using hconsW
    case vl =>
      intro b hb
      show b.valid = true
      rcases List.mem_append.mp hb with hm | hm
      · rw [Nat.sub_self] at hm; cases hm
      · obtain ⟨j, _, rfl⟩ := List.mem_map.mp hm; rfl
    case d0 => rfl
    case nm =>
      intro b hb
      show b.tag ≠ a W >>> (c.line_bits + c.index_bits)
      rcases List.mem_append.mp hb with hm | hm
      · rw [Nat.sub_self] at hm; cases hm
      · obtain ⟨j, hj, rfl⟩ := List.mem_map.mp hm
        have hjW : j < W := List.mem_range.mp hj
        exact hdist j (by omega) W (by omega) (by omega)
    case pr =>
      show ((List.range W).map (fun j => a j >>> c.line_bits)).contains
          (a W >>> c.line_bits) = false
      rw [Bool.eq_false_iff]
      intro hcon
      obtain ⟨j, hj, hje⟩ := List.mem_map.mp (List.elem_iff.mp hcon)
      have hjW : j < W := List.mem_range.mp hj
      have : a j >>> (c.line_bits + c.index_bits)
          = a W >>> (c.line_bits + c.index_bits) := by
        rw [Nat.shiftRight_add, Nat.shiftRight_add, hje]
      exact hdist j (by omega) W (by omega) (by omega) this
  have hW1 : 1 + (W - 1) = W := by omega
  have huni : ((List.range (W - 1)).map (fun j =>
      (⟨a (1 + j) >>> (c.line_bits + c.index_bits), false, true⟩ : CacheBlock)))
        ++ [⟨a W >>> (c.line_bits + c.index_bits), false, true⟩]
      = (List.range W).map (fun j =>
          (⟨a (1 + j) >>> (c.line_bits + c.index_bits), false, true⟩ : CacheBlock)) := by
    conv_rhs => rw [hWw]
    rw [← rangeMap_snoc (fun m =>
        (⟨a m >>> (c.line_bits + c.index_bits), false, true⟩ : CacheBlock)) 1 (W - 1), hW1]
  have hcons1 : (List.range W).map (fun j =>
      (⟨a (1 + j) >>> (c.line_bits + c.index_bits), false, true⟩ : CacheBlock))
      = (⟨a 1 >>> (c.line_bits + c.index_bits), false, true⟩ : CacheBlock)
        :: (List.range (W - 1)).map (fun j =>
            (⟨a (1 + 1 + j) >>> (c.line_bits + c.index_bits), false, true⟩ : CacheBlock)) := by
    conv_lhs => rw [hWw]
    exact rangeMap_cons (fun m =>
      (⟨a m >>> (c.line_bits + c.index_bits), false, true⟩ : CacheBlock)) 1 (W - 1)
  have hstepFinal : (runFA c (fillTrace a (W + 1))).read (a 0) 0 = { c with
      access_info := ⟨W + 1 + 1, W + 1 + 1, 0, W + 1 + 1, W + 1, 0 + 1, 0, W + 1 + 1, 0, 0⟩
      accessed_blocks := ((List.range W).map (fun j => a j >>> c.line_bits))
          ++ [a W >>> c.line_bits]
      cache_blocks := ((List.range (W - 1)).map (fun j =>
          (⟨a (1 + 1 + j) >>> (c.line_bits + c.index_bits), false, true⟩ : CacheBlock)))
        ++ [⟨a 0 >>> (c.line_bits + c.index_bits), false, true⟩] } := by
    rw [hstepW]
    rw [faRead_evict_step_old _ (a 0) 0
        (⟨a 1 >>> (c.line_bits + c.index_bits), false, true⟩ : CacheBlock)
        ((List.range (W - 1)).map (fun j =>
            (⟨a (1 + 1 + j) >>> (c.line_bits + c.index_bits), false, true⟩ : CacheBlock)))
        ?pl2 ?bl2 ?vl2 ?d02 ?nm2 ?pr2]
    case pl2 => exact hpol
    case bl2 =>
      show ((List.range (W - 1)).map _) ++ _ = _
      rw [huni, hcons1]
    case vl2 =>
      intro b hb
      show b.valid = true
      rw [show ((List.range (W - 1)).map (fun j =>
          (⟨a (1 + j) >>> (c.line_bits + c.index_bits), false, true⟩ : CacheBlock)))
            ++ [⟨a W >>> (c.line_bits + c.index_bits), false, true⟩]
          = ((List.range (W - 1)).map (fun j =>
              (⟨a (1 + j) >>> (c.line_bits + c.index_bits), false, true⟩ : CacheBlock)))
            ++ [⟨a W >>> (c.line_bits + c.index_bits), false, true⟩] from rfl] at hb
      rcases List.mem_append.mp hb with hm | hm
      · obtain ⟨j, _, rfl⟩ := List.mem_map.mp hm; rfl
      · rcases List.mem_singleton.mp hm with rfl; rfl
    case d02 => rfl
    case nm2 =>
      intro b hb
      show b.tag ≠ a 0 >>> (c.line_bits + c.index_bits)
      rcases List.mem_append.mp hb with hm | hm
      · obtain ⟨j, hj, rfl⟩ := List.mem_map.mp hm
        have hjW : j < W - 1 := List.mem_range.mp hj
        exact hdist (1 + j) (by omega) 0 (by omega) (by omega)
      · rcases List.mem_singleton.mp hm with rfl
        show a W >>> (c.line_bits + c.index_bits) ≠ a 0 >>> (c.line_bits + c.index_bits)
        exact hdist W (by omega) 0 (by omega) (by omega)
    case pr2 =>
      show (((List.range W).map (fun j => a j >>> c.line_bits))
          ++ [a W >>> c.line_bits]).contains (a 0 >>> c.line_bits) = true
      refine List.elem_iff.mpr (List.mem_append.mpr (Or.inl ?_))
      exact List.mem_map.mpr ⟨0, List.mem_range.mpr (by omega), rfl⟩
  refine ⟨?_, ?_, ?_, ?_, ?_⟩
  · intro si rnd
    simp [CacheReplace.get_victim_index, hpol]
  · rw [hstepW]
    show (((List.range (W - 1)).map (fun j =>
        (⟨a (1 + j) >>> (c.line_bits + c.index_bits), false, true⟩ : CacheBlock)))
      ++ [(⟨a W >>> (c.line_bits + c.index_bits), false, true⟩ : CacheBlock)]).map
        CacheBlock.tag = _
    rw [huni, List.map_map]
    rfl
  · rw [hstepW]
  · rw [hstepFinal]
  · rw [hstepFinal]
    show ((((List.range (W - 1)).map (fun j =>
        (⟨a (1 + 1 + j) >>> (c.line_bits + c.index_bits), false, true⟩ : CacheBlock)))
      ++ [(⟨a 0 >>> (c.line_bits + c.index_bits), false, true⟩ : CacheBlock)]).map
        CacheBlock.tag) = _
    rw [List.map_append, List.map_map]
    refine congrArg₂ _ ?_ rfl
    apply List.map_congr_left
    intro j _
    show a (1 + 1 + j) >>> (c.line_bits + c.index_bits) = a (2 + j) >>> (c.line_bits + c.index_bits)
    congr 2

/-- Witness for C5 (amended): W = 2, addresses 0, 2, 4 (block addresses
0, 2, 4; tags 0, 1, 2 — pairwise distinct), residual tags 10, 11; the
re-access of address 0 is the unique capacity miss. -/
theorem C5_lru_eviction_scenario_witness :
    (FullyAssocCache.read
        (runFA (FullyAssocCache.create 2 1 CacheReplacement.LRU (fun i => 10 + i))
          (fillTrace (fun i => 2 * i) (2 + 1)))
        ((fun i => 2 * i) 0) 0).access_info.capacity_misses = 1 := by
  exact (C5_lru_eviction_scenario
    (FullyAssocCache.create 2 1 CacheReplacement.LRU (fun i => 10 + i))
    (fun i => 2 * i) (fun i => 10 + i) 2
    (by decide) (by decide) (by decide) (by decide) (by decide)
    (by decide) (by decide)).2.2.2.1
